import Mathlib

/-!
Shallow embedding of `tmux-worker-manager` (`main.go`) and proofs about its
consistency-reconciliation subsystem.

Modelling conventions (each definition is translated from `main.go`):

* The external world visible to the program is a `World`: the persisted
  registry file (`.tmux-workers.json`, already parsed into a `Config`), the
  live tmux panes of window 0 of the bound session, the set of existing
  filesystem directories (as path strings), whether the tmux session exists,
  and the current working directory.
* External commands (tmux / git invocations) may fail; an `Oracle` records
  which provider operations succeed, plus the pane id tmux assigns to each
  newly created pane and the default title a fresh pane carries before the
  program retitles it.  tmux pane ids are unique, so retitling the pane the
  program just created is modelled by retitling the last (newly appended)
  pane.
* tmux `list-panes` output parsing (`strings.SplitN` on `:`) recovers the
  pane id and title exactly (ids never contain `:`), so pane queries are
  modelled as returning the structured pane list directly.
* Timestamps (`time.Now()`) are modelled as an abstract `Nat` clock value.
-/

/-- The single-quote character, used by Go format strings in messages and by
the default init command. -/
def quoteChar : Char := Char.ofNat 39

/-- `strings.Contains s sub` (Go): substring containment as a Bool. -/
def goContains (s sub : String) : Bool :=
  s.data.tails.any (fun t => sub.data.isPrefixOf t)

/-- Strip an expected leading character sequence; `none` when `p` does not
start with `pre`.  Backs the model of `filepath` path manipulation. -/
def stripPre : List Char → List Char → Option (List Char)
  | [], rest => some rest
  | _ :: _, [] => none
  | a :: as, b :: bs => if a = b then stripPre as bs else none

/-- `filepath.Join d n` (Go) for the shapes the program uses: a leading
`./` on the directory is cleaned away and the two parts are joined
with `/`. -/
def goJoin (d n : String) : String :=
  let d' := match stripPre ['.', '/'] d.data with
            | some rest => String.mk rest
            | none => d
  d' ++ "/" ++ n

/-- Split a character list at every occurrence of `c` (the pieces, in
order, without the separators).  Kernel-computable stand-in for
`String.splitOn` on a single-character separator. -/
def splitChar (c : Char) : List Char → List Char → List (List Char)
  | [], acc => [acc.reverse]
  | x :: xs, acc =>
      if x = c then acc.reverse :: splitChar c xs []
      else splitChar c xs (x :: acc)

/-- `filepath.Base p` (Go): the last path element; `"."` for the empty path,
`"/"` when the path is all separators. -/
def goBase (p : String) : String :=
  if p = "" then "."
  else
    match ((splitChar '/' p.data []).filter (fun c => c ≠ [])).getLast? with
    | some c => String.mk c
    | none => "/"

/-- The immediate child name of directory `d` carried by path `p`
(`p = d ++ "/" ++ name` with a nonempty, slash-free name), if any. -/
def childOf (d p : String) : Option String :=
  match stripPre (d.data ++ ['/']) p.data with
  | some rest =>
      if rest ≠ [] ∧ ¬ rest.contains '/' then some (String.mk rest) else none
  | none => none

/-- `os.Open(dir)` + `Readdir(-1)` restricted to directories: the names found
directly under `d` in the filesystem `fs` (a set of existing directory
paths).  A missing or empty directory yields `[]`, matching the code's
silent skip when the open fails. -/
def childNames (fs : List String) (d : String) : List String :=
  fs.filterMap (fun p => childOf d p)

/-- `Worker` (main.go): one registry record per worker. -/
structure Worker where
  id : String
  worktreePath : String
  tmuxSession : String
  windowIndex : Int
  paneID : String
  paneIndex : Int
  createdAt : Nat
  status : String
deriving DecidableEq, Repr

/-- `Config` (main.go): the persisted registry. -/
structure Config where
  workers : List Worker
  initCommand : String
  worktreePrefix : String
  projectPath : String
deriving DecidableEq, Repr

/-- A live tmux pane of window 0: its stable pane id and current title. -/
structure Pane where
  pid : String
  title : String
deriving DecidableEq, Repr

/-- The program-visible external state. -/
structure World where
  saved : Option Config
  panes : List Pane
  fs : List String
  sessionExists : Bool
  cwd : String
  paneCtr : Nat
  now : Nat
deriving DecidableEq, Repr

/-- Success/failure of each external provider invocation, the pane ids tmux
assigns to freshly split panes, and the title a fresh pane carries before
it is retitled. -/
structure Oracle where
  worktreeAddBOk : Bool
  worktreeAddNoBOk : Bool
  worktreeRemoveOk : Bool
  worktreeRemoveForceOk : Bool
  splitVOk : Bool
  splitHOk : Bool
  displayOk : Bool
  retitleOk : Bool
  killPaneOk : Bool
  listPanes0Ok : Bool
  listPanesRepairOk : Bool
  listPanesAdoptOk : Bool
  saveOk : Bool
  freshPid : Nat → String
  defaultTitle : String

/-- `getDefaultInitCommand` (main.go). -/
def getDefaultInitCommand : String :=
  "echo " ++ quoteChar.toString ++ "Hello, worker!" ++ quoteChar.toString

/-- `getDefaultWorktreePrefix` (main.go). -/
def getDefaultWorktreePrefix : String := "worktree"

/-- First default-filling step of `loadConfig`: an empty init command is
replaced by the default. -/
def fillInitDefault (c : Config) : Config :=
  if c.initCommand = "" then
    { c with initCommand := getDefaultInitCommand } else c

/-- Second default-filling step of `loadConfig`: an empty worktree prefix
is replaced by the default. -/
def fillWtDefault (c : Config) : Config :=
  if c.worktreePrefix = "" then
    { c with worktreePrefix := getDefaultWorktreePrefix } else c

/-- The default-filling applied by `loadConfig` after unmarshalling. -/
def fillDefaults (c : Config) : Config := fillWtDefault (fillInitDefault c)

/-- `loadConfig` (main.go): a missing registry file yields the default
config; otherwise the stored config with defaults filled in. -/
def loadConfig (w : World) : Config :=
  match w.saved with
  | none => { workers := [], initCommand := getDefaultInitCommand,
              worktreePrefix := getDefaultWorktreePrefix, projectPath := "" }
  | some c => fillDefaults c

/-- `getCurrentProjectName` (main.go): base name of the working directory. -/
def getCurrentProjectName (w : World) : String := goBase w.cwd

/-- `getSessionName` (main.go): equal to the project name. -/
def getSessionName (w : World) : String := getCurrentProjectName w

/-- The pane-title filter applied when building `paneMap` in both
`checkConsistency` and `repairInconsistencies`: drop empty titles, the
project-root pane's title, and titles containing the hardcoded sentinel. -/
def paneFilter (projectName t : String) : Bool :=
  t ≠ "" && t ≠ projectName && !(goContains t "GX3V2YXM92")

/-- The key set of `paneMap` (title → pane id): distinct filtered pane
titles.  Only the keys are ever read by the reconciler. -/
def paneTitles (projectName : String) (panes : List Pane) : List String :=
  ((panes.map (fun p => p.title)).filter (paneFilter projectName)).dedup

/-- The worker ids recorded in a registry. -/
def workerIds (ws : List Worker) : List String := ws.map (fun wk => wk.id)

example : goJoin "./worktree" "abc" = "worktree/abc" := by decide
example : goJoin "worktree" "abc" = "worktree/abc" := by decide
example : goBase "/home/user/proj" = "proj" := by decide
example : childOf "worktree" "worktree/abc" = some "abc" := by decide
example : childOf "worktree" "worktree/a/b" = none := by decide
example : childOf "worktree" "elsewhere/abc" = none := by decide
example : goContains "/home/worktree/x" "/worktree/" = true := by decide
example : goContains "/home/pro" "/worktree/" = false := by decide
example : paneFilter "proj" "proj" = false := by decide
example : paneFilter "proj" "mac-GX3V2YXM92-3.local" = false := by decide
example : paneFilter "proj" "workerA" = true := by decide

/-- The rollback `git worktree remove <path>` issued by `addWorker` on a
provisioning failure (its error is ignored; on success the path is gone). -/
def rollbackWorktree (o : Oracle) (fs : List String) (path : String) :
    List String :=
  if o.worktreeRemoveOk then fs.filter (fun p => p ≠ path) else fs

/-- `addWorker` (main.go): create a worker.  Returns the resulting world;
every refusal or rolled-back failure path leaves the world as the code
leaves it. -/
def addWorker (o : Oracle) (w : World) (id : String) : World :=
  -- refuse when the working directory is inside a worktree path
  if goContains w.cwd "/worktree/" then w
  else
    let config := loadConfig w
    -- refuse when initialized from a different project directory
    if config.projectPath ≠ "" ∧ w.cwd ≠ config.projectPath then w
    -- refuse when a worker with this id already exists
    else if config.workers.any (fun wk => wk.id = id) then w
    else
      let worktreePath := goJoin ("./" ++ config.worktreePrefix) id
      -- step 1: git worktree add -b id path, retrying without -b
      if ¬ (o.worktreeAddBOk ∨ o.worktreeAddNoBOk) then w
      else
        let fs1 := worktreePath :: w.fs
        -- step 2: session must exist, else roll back the worktree
        if getSessionName w = "" then
          { w with fs := rollbackWorktree o fs1 worktreePath }
        else if ¬ w.sessionExists then
          { w with fs := rollbackWorktree o fs1 worktreePath }
        else
          -- step 3: split-window -v, falling back to -h
          if ¬ (o.splitVOk ∨ o.splitHOk) then
            { w with fs := rollbackWorktree o fs1 worktreePath }
          else
            let newPid := o.freshPid w.paneCtr
            let panes1 := w.panes ++ [⟨newPid, o.defaultTitle⟩]
            -- step 4: display-message to capture pane index and id;
            -- on failure the worktree is rolled back (the pane is not)
            if ¬ o.displayOk then
              { w with fs := rollbackWorktree o fs1 worktreePath,
                       panes := panes1, paneCtr := w.paneCtr + 1 }
            else
              -- select-pane -T id (errors ignored), then record and save
              let panes2 := if o.retitleOk
                            then w.panes ++ [⟨newPid, id⟩] else panes1
              let worker : Worker :=
                { id := id, worktreePath := worktreePath,
                  tmuxSession := getSessionName w, windowIndex := 0,
                  paneID := newPid,
                  paneIndex := (panes1.length : Int) - 1,
                  createdAt := w.now, status := "active" }
              let config2 :=
                { config with workers := config.workers ++ [worker] }
              { w with fs := fs1, panes := panes2,
                       paneCtr := w.paneCtr + 1,
                       saved := if o.saveOk then some config2 else w.saved }

/-- The record lookup in `removeWorker`: find the first worker with the
given id and return it together with the list with that entry removed
(the code records the index and erases it by slicing). -/
def removeFirstWorker : List Worker → String → Option (Worker × List Worker)
  | [], _ => none
  | wk :: rest, id =>
      if wk.id = id then some (wk, rest)
      else (removeFirstWorker rest id).map (fun r => (r.1, wk :: r.2))

/-- `removeWorker` (main.go): destroy a worker.  Pane kill and worktree
removal are best effort (worktree removal retries with `--force`); the
record is dropped and the registry saved regardless. -/
def removeWorker (o : Oracle) (w : World) (id : String) : World :=
  let config := loadConfig w
  match removeFirstWorker config.workers id with
  | none => w
  | some (worker, rest) =>
      let panes1 := if o.killPaneOk
                    then w.panes.filter (fun p => p.pid ≠ worker.paneID)
                    else w.panes
      let fs1 := if o.worktreeRemoveOk then
                   w.fs.filter (fun p => p ≠ worker.worktreePath)
                 else if o.worktreeRemoveForceOk then
                   w.fs.filter (fun p => p ≠ worker.worktreePath)
                 else w.fs
      let config2 := { config with workers := rest }
      { w with panes := panes1, fs := fs1,
               saved := if o.saveOk then some config2 else w.saved }

/-- `InconsistencyType` (main.go). -/
inductive InconsistencyType where
  | missingWorktree
  | missingPane
  | orphanedWorktree
  | orphanedPane
deriving DecidableEq, Repr

/-- `Inconsistency` (main.go). -/
structure Inconsistency where
  type : InconsistencyType
  workerID : String
  description : String
deriving DecidableEq, Repr

/-- Wrap a string in single quotes, as Go's `'%s'` format does. -/
def quoteId (s : String) : String :=
  quoteChar.toString ++ s ++ quoteChar.toString

/-- The per-worker checks of `checkConsistency`: a missing-pane entry when
no live filtered title equals the id, then a missing-worktree entry when
the recorded path does not exist. -/
def checkWorker (pm : List String) (fs : List String) (wk : Worker) :
    List Inconsistency :=
  (if ¬ pm.contains wk.id then
     [⟨InconsistencyType.missingPane, wk.id,
       "Worker " ++ quoteId wk.id ++ " has worktree but missing pane"⟩]
   else []) ++
  (if ¬ fs.contains wk.worktreePath then
     [⟨InconsistencyType.missingWorktree, wk.id,
       "Worker " ++ quoteId wk.id ++ " has pane but missing worktree"⟩]
   else [])

/-- `checkConsistency` (main.go): a pure read.  Returns the (unchanged)
world together with the inconsistency list it reports; error paths report
nothing.  Note the orphaned-worktree scan reads the fixed directory name
`"worktree"`, not the configured prefix. -/
def checkConsistency (o : Oracle) (w : World) : World × List Inconsistency :=
  if getSessionName w = "" then (w, [])
  else if ¬ w.sessionExists then (w, [])
  else
    let config := loadConfig w
    if ¬ o.listPanes0Ok then (w, [])
    else
      let pm := paneTitles (getCurrentProjectName w) w.panes
      let ids := workerIds config.workers
      let workerIncs := config.workers.flatMap (checkWorker pm w.fs)
      let orphanPanes :=
        (pm.filter (fun t => ¬ ids.contains t)).map (fun t =>
          ⟨InconsistencyType.orphanedPane, t,
            "Pane " ++ quoteId t ++ " exists but no worker in config"⟩)
      let orphanWts :=
        ((childNames w.fs "worktree").filter (fun x => ¬ ids.contains x)).map
          (fun x =>
            ⟨InconsistencyType.orphanedWorktree, x,
              "Worktree " ++ quoteId x ++ " exists but no worker in config"⟩)
      (w, workerIncs ++ orphanPanes ++ orphanWts)

/-- The missing-worktree repair for one worker (`repairInconsistencies`,
middle of the workers loop): when the recorded path does not exist, run
`git worktree add -b id path`, retrying without `-b`; on success the
path exists and the repair is counted. -/
def repairWorktreeStep (o : Oracle) (wk : Worker) (fs : List String) :
    List String × Nat :=
  if fs.contains wk.worktreePath then (fs, 0)
  else if o.worktreeAddBOk ∨ o.worktreeAddNoBOk then
    (wk.worktreePath :: fs, 1)
  else (fs, 0)

/-- State after the workers loop of `repairInconsistencies`. -/
structure Phase1Result where
  workers : List Worker
  panes : List Pane
  fs : List String
  ctr : Nat
  count : Nat
deriving DecidableEq, Repr

/-- Phase 1 of `repairInconsistencies`: the loop over existing workers.
`pm` is the pane-title snapshot taken before the loop.  A worker whose id
has no live filtered title gets a new pane via a vertical split only (no
horizontal fallback; on failure the loop continues, skipping that
worker's worktree check as well); the new pane is the last listed pane,
it is retitled to the worker id, and the record's pane id and index are
updated in place.  Then the missing-worktree repair runs. -/
def repairWorkers (o : Oracle) (pm : List String) :
    List Worker → List Pane → List String → Nat → Nat → Phase1Result
  | [], panes, fs, ctr, cnt =>
      { workers := [], panes := panes, fs := fs, ctr := ctr, count := cnt }
  | wk :: rest, panes, fs, ctr, cnt =>
    if pm.contains wk.id then
      let s := repairWorktreeStep o wk fs
      let r := repairWorkers o pm rest panes s.1 ctr (cnt + s.2)
      { r with workers := wk :: r.workers }
    else if ¬ o.splitVOk then
      let r := repairWorkers o pm rest panes fs ctr cnt
      { r with workers := wk :: r.workers }
    else if ¬ o.listPanesRepairOk then
      -- pane created but its id could not be read back: continue
      let r := repairWorkers o pm rest
        (panes ++ [⟨o.freshPid ctr, o.defaultTitle⟩]) fs (ctr + 1) cnt
      { r with workers := wk :: r.workers }
    else
      let wk1 := { wk with paneIndex := (panes.length : Int),
                           paneID := o.freshPid ctr }
      let s := repairWorktreeStep o wk1 fs
      let r := repairWorkers o pm rest
        (panes ++ [⟨o.freshPid ctr,
                    if o.retitleOk then wk.id else o.defaultTitle⟩])
        s.1 (ctr + 1) (cnt + 1 + s.2)
      { r with workers := wk1 :: r.workers }

/-- The re-query in orphaned-pane adoption: first listed pane whose title
equals the target, with its positional index. -/
def findPane : List Pane → String → Nat → Option (Nat × String)
  | [], _, _ => none
  | q :: rest, t, i =>
      if q.title = t then some (i, q.pid) else findPane rest t (i + 1)

/-- The worktree-ensure step of orphaned-pane adoption: create
`worktree/<title>` when missing (`git worktree add -b`, retry without
`-b`); `none` when both attempts fail (the loop continues). -/
def adoptEnsureWorktree (o : Oracle) (t : String) (fs : List String) :
    Option (List String) :=
  let path := goJoin "./worktree" t
  if fs.contains path then some fs
  else if o.worktreeAddBOk ∨ o.worktreeAddNoBOk then some (path :: fs)
  else none

/-- State after the orphaned-pane adoption loop. -/
structure Phase2Result where
  workers : List Worker
  fs : List String
  count : Nat
deriving DecidableEq, Repr

/-- Phase 2 of `repairInconsistencies`: adoption of orphaned panes.  `cw`
is the id set of the registry captured after phase 1 (not updated while
adopting), `panes` the live panes after phase 1, and the iteration runs
over the phase-0 title snapshot.  A record is appended only when the
re-query succeeds and yields a non-negative index and non-empty pane id;
a worktree created for a title stays even when adoption then fails. -/
def adoptOrphanedPanes (o : Oracle) (cw : List String)
    (sessionName : String) (now : Nat) (panes : List Pane) :
    List String → List Worker → List String → Nat → Phase2Result
  | [], workers, fs, cnt => { workers := workers, fs := fs, count := cnt }
  | t :: rest, workers, fs, cnt =>
    if cw.contains t then
      adoptOrphanedPanes o cw sessionName now panes rest workers fs cnt
    else
      match adoptEnsureWorktree o t fs with
      | none =>
          adoptOrphanedPanes o cw sessionName now panes rest workers fs cnt
      | some fs1 =>
        if ¬ o.listPanesAdoptOk then
          adoptOrphanedPanes o cw sessionName now panes rest workers fs1 cnt
        else
          match findPane panes t 0 with
          | none =>
              adoptOrphanedPanes o cw sessionName now panes rest workers
                fs1 cnt
          | some (idx, pid) =>
              if pid ≠ "" then
                adoptOrphanedPanes o cw sessionName now panes rest
                  (workers ++
                    [{ id := t, worktreePath := goJoin "./worktree" t,
                       tmuxSession := sessionName, windowIndex := 0,
                       paneID := pid, paneIndex := (idx : Int),
                       createdAt := now, status := "active" }])
                  fs1 (cnt + 1)
              else
                adoptOrphanedPanes o cw sessionName now panes rest workers
                  fs1 cnt

/-- One orphaned-worktree removal: `git worktree remove`, retrying with
`--force` on failure (both errors otherwise ignored). -/
def removeOrphanWorktree (o : Oracle) (fs : List String) (path : String) :
    List String :=
  if o.worktreeRemoveOk then fs.filter (fun p => p ≠ path)
  else if o.worktreeRemoveForceOk then fs.filter (fun p => p ≠ path)
  else fs

/-- State after the orphaned-worktree cleanup loop. -/
structure Phase3Result where
  fs : List String
  count : Nat
deriving DecidableEq, Repr

/-- Phase 3 of `repairInconsistencies`: orphaned-worktree cleanup over the
entries of the fixed directory `"worktree"` (listed once, after
adoption).  An entry is removed only when it matches no registry id from
before adoption (`cw`) and no live filtered pane title (`pm`); the
repair is counted whether or not the removal commands succeed. -/
def cleanupOrphanedWorktrees (o : Oracle) (cw pm : List String) :
    List String → List String → Nat → Phase3Result
  | [], fs, cnt => { fs := fs, count := cnt }
  | x :: rest, fs, cnt =>
    if ¬ cw.contains x ∧ ¬ pm.contains x then
      cleanupOrphanedWorktrees o cw pm rest
        (removeOrphanWorktree o fs (goJoin "worktree" x)) (cnt + 1)
    else cleanupOrphanedWorktrees o cw pm rest fs cnt

/-- Result of a repair pass: the world afterwards, the in-memory registry
at the end of the pass, and the repair count. -/
structure RepairResult where
  world : World
  config : Config
  count : Nat
deriving Repr

/-- The workers loop of a repair pass, applied to the loaded registry and
the initial pane/filesystem state of the world. -/
def repairPhase1 (o : Oracle) (w : World) : Phase1Result :=
  repairWorkers o (paneTitles (getCurrentProjectName w) w.panes)
    (loadConfig w).workers w.panes w.fs w.paneCtr 0

/-- The `configWorkers` id set captured between the workers loop and
adoption (phase 1 never changes ids). -/
def repairCW (o : Oracle) (w : World) : List String :=
  workerIds (repairPhase1 o w).workers

/-- The orphaned-pane adoption loop of a repair pass. -/
def repairPhase2 (o : Oracle) (w : World) : Phase2Result :=
  adoptOrphanedPanes o (repairCW o w) (getSessionName w) w.now
    (repairPhase1 o w).panes
    (paneTitles (getCurrentProjectName w) w.panes)
    (repairPhase1 o w).workers (repairPhase1 o w).fs
    (repairPhase1 o w).count

/-- The orphaned-worktree cleanup loop of a repair pass. -/
def repairPhase3 (o : Oracle) (w : World) : Phase3Result :=
  cleanupOrphanedWorktrees o (repairCW o w)
    (paneTitles (getCurrentProjectName w) w.panes)
    (childNames (repairPhase2 o w).fs "worktree")
    (repairPhase2 o w).fs (repairPhase2 o w).count

/-- `repairInconsistencies` (main.go): one repair pass.  Order: workers
loop (missing panes / missing worktrees), orphaned-pane adoption,
orphaned-worktree cleanup, then a single save.  As in `checkConsistency`,
the worktree directory scanned and used for adoption is the fixed name
`"worktree"`, not the configured prefix. -/
def repairInconsistencies (o : Oracle) (w : World) : RepairResult :=
  if getSessionName w = "" then ⟨w, loadConfig w, 0⟩
  else if ¬ w.sessionExists then ⟨w, loadConfig w, 0⟩
  else if ¬ o.listPanes0Ok then ⟨w, loadConfig w, 0⟩
  else
    ⟨{ w with panes := (repairPhase1 o w).panes,
              fs := (repairPhase3 o w).fs,
              paneCtr := (repairPhase1 o w).ctr,
              saved := if o.saveOk then
                  some { loadConfig w with
                           workers := (repairPhase2 o w).workers }
                else w.saved },
      { loadConfig w with workers := (repairPhase2 o w).workers },
      (repairPhase3 o w).count⟩

/-- JSON values, as far as the registry file format needs them.  Object
fields are kept in serialization order (Go marshals struct fields in
declaration order); `num` covers the integer fields, with the
`created_at` timestamp modelled by its abstract clock value. -/
inductive Json where
  | str : String → Json
  | num : Int → Json
  | arr : List Json → Json
  | obj : List (String × Json) → Json

/-- `encoding/json` field lookup: the last binding of a key wins. -/
def jLookup (kvs : List (String × Json)) (k : String) : Option Json :=
  (kvs.reverse.find? (fun e => e.1 = k)).map (fun e => e.2)

/-- Decode a string field: a missing key keeps the field's initial value
(Go unmarshals into an existing struct); a non-string value is an error. -/
def getStrField (kvs : List (String × Json)) (k : String) (init : String) :
    Option String :=
  match jLookup kvs k with
  | none => some init
  | some (Json.str s) => some s
  | some _ => none

/-- Decode an integer field; missing keeps the initial value. -/
def getIntField (kvs : List (String × Json)) (k : String) (init : Int) :
    Option Int :=
  match jLookup kvs k with
  | none => some init
  | some (Json.num n) => some n
  | some _ => none

/-- Decode the timestamp field (abstract clock, non-negative). -/
def getNatField (kvs : List (String × Json)) (k : String) (init : Nat) :
    Option Nat :=
  match jLookup kvs k with
  | none => some init
  | some (Json.num n) => if n < 0 then none else some n.toNat
  | some _ => none

/-- `json.Marshal` of a `Worker`: all fields serialized, stable names. -/
def marshalWorker (wk : Worker) : Json :=
  Json.obj [("id", Json.str wk.id),
            ("worktree_path", Json.str wk.worktreePath),
            ("tmux_session", Json.str wk.tmuxSession),
            ("window_index", Json.num wk.windowIndex),
            ("pane_id", Json.str wk.paneID),
            ("pane_index", Json.num wk.paneIndex),
            ("created_at", Json.num (wk.createdAt : Int)),
            ("status", Json.str wk.status)]

/-- `json.Marshal` of a `Config`: the worker list always present, the
three string fields carrying `omitempty`. -/
def marshalConfig (c : Config) : Json :=
  Json.obj ([("workers", Json.arr (c.workers.map marshalWorker))] ++
    (if c.initCommand = "" then []
     else [("init_command", Json.str c.initCommand)]) ++
    (if c.worktreePrefix = "" then []
     else [("worktree_prefix", Json.str c.worktreePrefix)]) ++
    (if c.projectPath = "" then []
     else [("project_path", Json.str c.projectPath)]))

/-- `json.Unmarshal` of one worker entry (fresh zero element). -/
def unmarshalWorker (j : Json) : Option Worker :=
  match j with
  | Json.obj kvs => do
      let id ← getStrField kvs "id" ""
      let wt ← getStrField kvs "worktree_path" ""
      let ts ← getStrField kvs "tmux_session" ""
      let wi ← getIntField kvs "window_index" 0
      let pid ← getStrField kvs "pane_id" ""
      let pi ← getIntField kvs "pane_index" 0
      let ca ← getNatField kvs "created_at" 0
      let st ← getStrField kvs "status" ""
      some ⟨id, wt, ts, wi, pid, pi, ca, st⟩
  | _ => none

/-- `json.Unmarshal` of the registry file into the initial config value
(`&Config{Workers: []Worker{}}` in `loadConfig`). -/
def unmarshalConfig (init : Config) (j : Json) : Option Config :=
  match j with
  | Json.obj kvs => do
      let ws ← match jLookup kvs "workers" with
               | none => some init.workers
               | some (Json.arr xs) => xs.mapM unmarshalWorker
               | some _ => none
      let ic ← getStrField kvs "init_command" init.initCommand
      let wp ← getStrField kvs "worktree_prefix" init.worktreePrefix
      let pp ← getStrField kvs "project_path" init.projectPath
      some ⟨ws, ic, wp, pp⟩
  | _ => none

/-- `loadConfig` at the persisted-data level: unmarshal into the zero
config (with an empty worker list), then fill defaults. -/
def loadConfigData (j : Json) : Option Config :=
  (unmarshalConfig ⟨[], "", "", ""⟩ j).map fillDefaults

/-- `saveConfig` at the persisted-data level: marshal the full state. -/
def saveConfigData (c : Config) : Json := marshalConfig c

/-! ### Concrete fixtures used by witnesses and counterexamples -/

/-- An oracle under which every provider operation succeeds. -/
def benignOracle : Oracle :=
  { worktreeAddBOk := true, worktreeAddNoBOk := true,
    worktreeRemoveOk := true, worktreeRemoveForceOk := true,
    splitVOk := true, splitHOk := true, displayOk := true,
    retitleOk := true, killPaneOk := true, listPanes0Ok := true,
    listPanesRepairOk := true, listPanesAdoptOk := true, saveOk := true,
    freshPid := fun n => "%" ++ toString (100 + n),
    defaultTitle := "host" }

/-- A registry record with the canonical worktree path for its id. -/
def sampleWorker (id : String) : Worker :=
  { id := id, worktreePath := "worktree/" ++ id, tmuxSession := "proj",
    windowIndex := 0, paneID := "%1", paneIndex := 1, createdAt := 0,
    status := "active" }

/-- A healthy world for project `proj`: worker `a` with its pane and
worktree, one orphaned pane `g`, one orphaned worktree `junk`. -/
def wMixed : World :=
  { saved := some { workers := [sampleWorker "a"], initCommand := "cmd",
                    worktreePrefix := "worktree", projectPath := "" },
    panes := [⟨"%0", "proj"⟩, ⟨"%1", "a"⟩, ⟨"%7", "g"⟩],
    fs := ["worktree/a", "worktree/junk"], sessionExists := true,
    cwd := "/home/proj", paneCtr := 0, now := 0 }

/-- A world whose registry uses a non-default worktree prefix `work`,
with an orphaned directory under that prefix. -/
def wCustom : World :=
  { saved := some { workers := [], initCommand := "cmd",
                    worktreePrefix := "work", projectPath := "" },
    panes := [⟨"%0", "proj"⟩], fs := ["work/orph"], sessionExists := true,
    cwd := "/home/proj", paneCtr := 0, now := 0 }

/-- A world with one worker `a` whose pane is missing (its worktree
exists), used against an oracle whose vertical split fails. -/
def wMissingPane : World :=
  { saved := some { workers := [sampleWorker "a"], initCommand := "cmd",
                    worktreePrefix := "worktree", projectPath := "" },
    panes := [⟨"%0", "proj"⟩], fs := ["worktree/a"], sessionExists := true,
    cwd := "/home/proj", paneCtr := 0, now := 0 }

/-- An empty initialized registry in project `proj`, ready for `add`. -/
def wEmpty : World :=
  { saved := some { workers := [], initCommand := "cmd",
                    worktreePrefix := "worktree", projectPath := "" },
    panes := [⟨"%0", "proj"⟩], fs := [], sessionExists := true,
    cwd := "/home/proj", paneCtr := 0, now := 0 }

/-- A world whose single worker's id equals the project name, so its
pane title is always filtered out of the pane-title snapshot. -/
def wReserved : World :=
  { saved := some { workers := [sampleWorker "proj"], initCommand := "cmd",
                    worktreePrefix := "worktree", projectPath := "" },
    panes := [⟨"%0", "proj"⟩], fs := ["worktree/proj"], sessionExists := true,
    cwd := "/home/proj", paneCtr := 0, now := 0 }

/-! ### Basic lemmas about the path and string helpers -/

theorem contains_iff_mem {l : List String} {a : String} :
    l.contains a = true ↔ a ∈ l := List.elem_iff

theorem stripPre_self_append (xs ys : List Char) :
    stripPre xs (xs ++ ys) = some ys := by
  induction xs with
  | nil => rfl
  | cons a as ih => simp [stripPre, ih]

theorem stripPre_eq_some {xs p r : List Char} (h : stripPre xs p = some r) :
    p = xs ++ r := by
  induction xs generalizing p with
  | nil => simpa [stripPre] using h
  | cons a as ih =>
    cases p with
    | nil => simp [stripPre] at h
    | cons b bs =>
      by_cases hab : a = b
      · subst hab
        simp only [stripPre, if_pos rfl] at h
        simpa using ih h
      · simp [stripPre, hab] at h

theorem string_mk_data (s : String) : String.mk s.data = s := rfl

theorem childOf_eq_some {d p n : String} (h : childOf d p = some n) :
    p.data = d.data ++ '/' :: n.data ∧ n.data ≠ [] ∧
      n.data.contains '/' = false := by
  unfold childOf at h
  split at h
  · rename_i rest hs
    split at h
    · rename_i hc
      have hn : n = String.mk rest := (Option.some.inj h).symm
      subst hn
      have hp := stripPre_eq_some hs
      refine ⟨by simpa using hp, hc.1, ?_⟩
      simpa using hc.2
    · cases h
  · cases h

theorem childOf_append {n : String} (d : String) (h1 : n.data ≠ [])
    (h2 : n.data.contains '/' = false) :
    childOf d (d ++ "/" ++ n) = some n := by
  unfold childOf
  have hd : (d ++ "/" ++ n).data = (d.data ++ ['/']) ++ n.data := by
    simp [String.data_append]
  have h2m : '/' ∉ n.data := by
    intro hm
    have hc : n.data.contains '/' = true := List.elem_iff.mpr hm
    rw [h2] at hc
    cases hc
  rw [hd, stripPre_self_append]
  simp [h1, h2m, string_mk_data]

theorem string_append_left_cancel {d x y : String}
    (h : d ++ x = d ++ y) : x = y := by
  have hd := congrArg String.data h
  simp only [String.data_append] at hd
  exact String.ext (List.append_cancel_left hd)

theorem mem_childNames {fs : List String} {d x : String} :
    x ∈ childNames fs d ↔ ∃ p ∈ fs, childOf d p = some x := by
  simp [childNames, List.mem_filterMap]

theorem mem_paneTitles {pn t : String} {ps : List Pane} :
    t ∈ paneTitles pn ps ↔
      paneFilter pn t = true ∧ ∃ q ∈ ps, q.title = t := by
  simp only [paneTitles, List.mem_dedup, List.mem_filter, List.mem_map]
  constructor
  · rintro ⟨⟨q, hq, rfl⟩, hf⟩
    exact ⟨hf, q, hq, rfl⟩
  · rintro ⟨hf, q, hq, rfl⟩
    exact ⟨⟨q, hq, rfl⟩, hf⟩

theorem paneTitles_mono {pn t : String} {ps ext : List Pane}
    (h : t ∈ paneTitles pn ps) : t ∈ paneTitles pn (ps ++ ext) := by
  rcases mem_paneTitles.mp h with ⟨hf, q, hq, rfl⟩
  exact mem_paneTitles.mpr ⟨hf, q, List.mem_append_left _ hq, rfl⟩

theorem goJoin_worktree (x : String) :
    goJoin "worktree" x = "worktree/" ++ x := by
  unfold goJoin
  rw [show stripPre ['.', '/'] "worktree".data = none from rfl]
  apply String.ext
  simp [String.data_append]

theorem goJoin_dot_worktree (x : String) :
    goJoin "./worktree" x = "worktree/" ++ x := by
  unfold goJoin
  rw [show stripPre ['.', '/'] "./worktree".data = some "worktree".data
        from rfl]
  apply String.ext
  simp [string_mk_data, String.data_append]

theorem worktree_path_inj {x y : String}
    (h : ("worktree/" ++ x : String) = "worktree/" ++ y) : x = y :=
  string_append_left_cancel h

theorem childOf_worktree_append {n : String} (h1 : n.data ≠ [])
    (h2 : n.data.contains '/' = false) :
    childOf "worktree" ("worktree/" ++ n) = some n := by
  have := childOf_append (d := "worktree") (n := n) h1 h2
  have harr : ("worktree" ++ "/" ++ n : String) = "worktree/" ++ n := by
    apply String.ext
    simp [String.data_append]
  rwa [harr] at this

theorem childOf_worktree_eq {p n : String}
    (h : childOf "worktree" p = some n) : p = "worktree/" ++ n := by
  have hd := (childOf_eq_some h).1
  apply String.ext
  rw [hd]
  simp [String.data_append]

/-! ### Claim C7: CHECK is a pure read -/

/-- C7: `checkConsistency` never mutates anything: for every oracle and
starting world the world component of its result — registry file, panes,
worktrees, all external state — is exactly the input world; only the
inconsistency report is produced.  Only REPAIR mutates. -/
theorem c7_check_is_pure_read (o : Oracle) (w : World) :
    (checkConsistency o w).1 = w := by
  unfold checkConsistency
  split
  · rfl
  · split
    · rfl
    · split
      · rfl
      · rfl

/-! ### Claim C2: the orphaned-worktree candidate set ignores the prefix -/

/-- C2: refuted on the code.  With the configured worktree prefix `work`
and an orphaned directory `work/orph` (no registry record, no live
pane), the reconciler's candidate set is empty — both CHECK and REPAIR
scan the fixed directory name `"worktree"` (`os.Open("worktree")` in
`checkConsistency` and `repairInconsistencies`), not the configured
prefix — so CHECK reports nothing, and REPAIR removes nothing and
counts zero, even though `orph` is a directory under the configured
prefix with no registry record.  The claim (and the spec's set **W**)
describes the intended behavior; the code is the slip. -/
theorem c2_reconciler_ignores_prefix :
    (loadConfig wCustom).worktreePrefix = "work" ∧
    childNames wCustom.fs (loadConfig wCustom).worktreePrefix = ["orph"] ∧
    childNames wCustom.fs "worktree" = [] ∧
    (checkConsistency benignOracle wCustom).2 = [] ∧
    (repairInconsistencies benignOracle wCustom).world.fs = ["work/orph"] ∧
    (repairInconsistencies benignOracle wCustom).count = 0 := by
  refine ⟨rfl, by decide, by decide, by decide, by decide, by decide⟩

/-! ### Claim C5: save(load()) on the persisted representation -/

theorem unmarshalWorker_marshalWorker (wk : Worker) :
    unmarshalWorker (marshalWorker wk) = some wk := by
  have hca : ¬ ((wk.createdAt : Int) < 0) := by omega
  simp [unmarshalWorker, marshalWorker, getStrField, getIntField,
        getNatField, jLookup, hca]

theorem mapM_loop_marshal (ws acc : List Worker) :
    List.mapM.loop unmarshalWorker (ws.map marshalWorker) acc =
      some (acc.reverse ++ ws) := by
  induction ws generalizing acc with
  | nil => simp [List.mapM.loop]
  | cons wk rest ih =>
      simp [List.mapM.loop, unmarshalWorker_marshalWorker, ih]

/-- C5 counterexample: the claim fails as stated.  The persisted state
`{"workers": []}` is valid (it loads without error), but loading it and
saving the result produces a different persisted representation:
`loadConfig` fills in the default init command and worktree prefix, so
the rewritten file additionally carries `init_command` and
`worktree_prefix` fields. -/
theorem c5_save_load_changes_file :
    loadConfigData (Json.obj [("workers", Json.arr [])]) =
      some { workers := [], initCommand := getDefaultInitCommand,
             worktreePrefix := "worktree", projectPath := "" } ∧
    (loadConfigData (Json.obj [("workers", Json.arr [])])).map
        saveConfigData =
      some (Json.obj [("workers", Json.arr []),
                      ("init_command", Json.str getDefaultInitCommand),
                      ("worktree_prefix", Json.str "worktree")]) ∧
    Json.obj [("workers", Json.arr []),
              ("init_command", Json.str getDefaultInitCommand),
              ("worktree_prefix", Json.str "worktree")] ≠
      Json.obj [("workers", Json.arr [])] := by
  refine ⟨rfl, rfl, ?_⟩
  intro h
  injection h with h1
  simp at h1

/-- C5 amended: save-after-load is the identity only on persisted states
in the save-image of configs whose init command and worktree prefix are
nonempty (every config the program itself holds after a load is of this
shape); for such configs load inverts save exactly, hence
`save(load(f)) = f` for `f = save(c)`.  Other valid persisted states —
missing defaultable fields, as in the counterexample — are normalized,
not preserved. -/
theorem c5_roundtrip_amended (c : Config)
    (h1 : c.initCommand ≠ "") (h2 : c.worktreePrefix ≠ "") :
    loadConfigData (saveConfigData c) = some c ∧
    (loadConfigData (saveConfigData c)).map saveConfigData =
      some (saveConfigData c) := by
  obtain ⟨ws, ic, wp, pp⟩ := c
  simp only [] at h1 h2
  have hmain : loadConfigData (saveConfigData ⟨ws, ic, wp, pp⟩) =
      some ⟨ws, ic, wp, pp⟩ := by
    unfold loadConfigData saveConfigData marshalConfig unmarshalConfig
    rw [if_neg h1, if_neg h2]
    by_cases hp : pp = ""
    · subst hp
      rw [if_pos rfl]
      simp [jLookup, getStrField, mapM_loop_marshal, fillDefaults,
            fillInitDefault, fillWtDefault, h1, h2]
    · rw [if_neg hp]
      simp [jLookup, getStrField, mapM_loop_marshal, fillDefaults,
            fillInitDefault, fillWtDefault, h1, h2]
  exact ⟨hmain, by rw [hmain]; rfl⟩

/-- Witness for the amended C5 at a concrete config. -/
theorem c5_roundtrip_amended_witness :
    loadConfigData (saveConfigData
        ⟨[sampleWorker "a"], "cmd", "worktree", "/home/proj"⟩) =
      some ⟨[sampleWorker "a"], "cmd", "worktree", "/home/proj"⟩ ∧
    (loadConfigData (saveConfigData
        ⟨[sampleWorker "a"], "cmd", "worktree", "/home/proj"⟩)).map
        saveConfigData =
      some (saveConfigData
        ⟨[sampleWorker "a"], "cmd", "worktree", "/home/proj"⟩) :=
  c5_roundtrip_amended ⟨[sampleWorker "a"], "cmd", "worktree", "/home/proj"⟩
    (by decide) (by decide)

/-! ### Claim C4: worker ids are unique; duplicate create is refused -/

theorem fillInitDefault_workers (c : Config) :
    (fillInitDefault c).workers = c.workers := by
  unfold fillInitDefault
  split
  · rfl
  · rfl

theorem fillWtDefault_workers (c : Config) :
    (fillWtDefault c).workers = c.workers := by
  unfold fillWtDefault
  split
  · rfl
  · rfl

theorem fillDefaults_workers (c : Config) :
    (fillDefaults c).workers = c.workers := by
  unfold fillDefaults
  rw [fillWtDefault_workers, fillInitDefault_workers]

theorem loadConfig_update_fs_panes (w : World) (panes : List Pane)
    (fs : List String) (ctr : Nat) :
    loadConfig { w with panes := panes, fs := fs, paneCtr := ctr } =
      loadConfig w := rfl

theorem loadConfig_eq_of_saved {v w : World} (h : v.saved = w.saved) :
    loadConfig v = loadConfig w := by
  unfold loadConfig
  rw [h]

theorem addWorker_preserves_nodup (o : Oracle) (w : World) (id : String)
    (h : (workerIds (loadConfig w).workers).Nodup) :
    (workerIds (loadConfig (addWorker o w id)).workers).Nodup := by
  unfold addWorker
  dsimp only
  by_cases h1 : goContains w.cwd "/worktree/" = true
  · rw [if_pos h1]; exact h
  rw [if_neg h1]
  by_cases h2 : (loadConfig w).projectPath ≠ "" ∧
      w.cwd ≠ (loadConfig w).projectPath
  · rw [if_pos h2]; exact h
  rw [if_neg h2]
  by_cases h3 : (loadConfig w).workers.any (fun wk => wk.id = id) = true
  · rw [if_pos h3]; exact h
  rw [if_neg h3]
  by_cases h4 : ¬ (o.worktreeAddBOk = true ∨ o.worktreeAddNoBOk = true)
  · rw [if_pos h4]; exact h
  rw [if_neg h4]
  by_cases h5 : getSessionName w = ""
  · rw [if_pos h5]; exact h
  rw [if_neg h5]
  by_cases h6 : ¬ w.sessionExists = true
  · rw [if_pos h6]; exact h
  rw [if_neg h6]
  by_cases h7 : ¬ (o.splitVOk = true ∨ o.splitHOk = true)
  · rw [if_pos h7]; exact h
  rw [if_neg h7]
  by_cases h8 : ¬ o.displayOk = true
  · rw [if_pos h8]; exact h
  rw [if_neg h8]
  by_cases h9 : o.saveOk = true
  · rw [if_pos h9]
    have hnotin : id ∉ workerIds (loadConfig w).workers := by
      intro hmem
      rcases List.mem_map.mp hmem with ⟨wk, hwk, hid⟩
      exact h3 (List.any_eq_true.mpr ⟨wk, hwk, by simp [hid]⟩)
    simp only [loadConfig, fillDefaults_workers, workerIds, List.map_append]
    refine List.nodup_append.mpr ⟨h, List.nodup_singleton _,
      fun a ha hb => ?_⟩
    simp only [List.map_cons, List.map_nil, List.mem_singleton] at hb
    subst hb
    exact hnotin ha
  · rw [if_neg h9]
    exact h

/-- C4: (i) a `create` whose id already has a record is refused with no
side effect at all — the returned world (registry file, panes,
worktrees) is the input world; (ii) consequently, starting from any
registry with distinct ids, after any sequence of `create` calls (any
ids, any provider outcomes) the registry ids are still distinct. -/
theorem c4_create_unique_ids :
    (∀ (o : Oracle) (w : World) (id : String),
        (loadConfig w).workers.any (fun wk => wk.id = id) = true →
        addWorker o w id = w) ∧
    (∀ (w : World) (calls : List (Oracle × String)),
        (workerIds (loadConfig w).workers).Nodup →
        (workerIds (loadConfig
            (calls.foldl (fun w2 c => addWorker c.1 w2 c.2) w)).workers).Nodup) := by
  constructor
  · intro o w id hdup
    unfold addWorker
    by_cases h1 : goContains w.cwd "/worktree/"
    · simp [h1]
    · by_cases h2 : (loadConfig w).projectPath ≠ "" ∧
          w.cwd ≠ (loadConfig w).projectPath
      · simp [h1, h2]
      · simp [h1, h2, hdup]
  · intro w calls
    induction calls generalizing w with
    | nil => exact fun h => h
    | cons c rest ih =>
        intro h
        exact ih (addWorker c.1 w c.2) (addWorker_preserves_nodup c.1 w c.2 h)

/-- Witness for C4: a duplicate `create` for `a` in `wMixed` returns the
world unchanged, and a fresh `create` for `b` keeps ids distinct. -/
theorem c4_create_unique_ids_witness :
    addWorker benignOracle wMixed "a" = wMixed ∧
    (workerIds (loadConfig
        ([(benignOracle, "b")].foldl
          (fun w2 c => addWorker c.1 w2 c.2) wMixed)).workers).Nodup :=
  ⟨c4_create_unique_ids.1 benignOracle wMixed "a" (by decide),
   c4_create_unique_ids.2 wMixed [(benignOracle, "b")] (by decide)⟩

/-! ### Claim C6: destroy always converges -/

theorem removeFirstWorker_spec (ws : List Worker) (id : String)
    (hmem : id ∈ workerIds ws) (hnd : (workerIds ws).Nodup) :
    ∃ wk rest, removeFirstWorker ws id = some (wk, rest) ∧
      id ∉ workerIds rest := by
  induction ws with
  | nil => simp [workerIds] at hmem
  | cons a as ih =>
    by_cases ha : a.id = id
    · refine ⟨a, as, by simp [removeFirstWorker, ha], ?_⟩
      have hnotin : a.id ∉ workerIds as :=
        (List.nodup_cons.mp hnd).1
      rw [ha] at hnotin
      exact hnotin
    · have hmem' : id ∈ workerIds as := by
        rcases List.mem_cons.mp hmem with h | h
        · exact absurd h.symm ha
        · exact h
      have hnd' : (workerIds as).Nodup := (List.nodup_cons.mp hnd).2
      rcases ih hmem' hnd' with ⟨wk, rest, hr, hni⟩
      refine ⟨wk, a :: rest, by simp [removeFirstWorker, ha, hr], ?_⟩
      intro hmem2
      rcases List.mem_cons.mp hmem2 with h | h
      · exact ha h.symm
      · exact hni h

/-- C6: after `destroy(id)` on a registry holding a record for `id`
(with the registry's id-uniqueness invariant), `id` is absent from the
persisted registry — for every combination of pane-kill and
worktree-removal outcomes; those provider failures are warnings only and
never block dropping the record and saving. -/
theorem c6_destroy_converges (o : Oracle) (w : World) (id : String)
    (hnd : (workerIds (loadConfig w).workers).Nodup)
    (hmem : id ∈ workerIds (loadConfig w).workers)
    (hsave : o.saveOk = true) :
    id ∉ workerIds (loadConfig (removeWorker o w id)).workers := by
  rcases removeFirstWorker_spec (loadConfig w).workers id hmem hnd
    with ⟨wk, rest, hr, hni⟩
  unfold removeWorker
  dsimp only
  rw [hr]
  dsimp only
  rw [if_pos hsave]
  show id ∉ workerIds
    (fillDefaults { loadConfig w with workers := rest }).workers
  rw [fillDefaults_workers]
  exact hni

/-- Witness for C6: destroying worker `a` in `wMixed` with a failing
worktree removal still leaves the registry without `a`. -/
theorem c6_destroy_converges_witness :
    "a" ∉ workerIds (loadConfig (removeWorker
      { benignOracle with killPaneOk := false, worktreeRemoveOk := false,
                          worktreeRemoveForceOk := false }
      wMixed "a")).workers :=
  c6_destroy_converges
    { benignOracle with killPaneOk := false, worktreeRemoveOk := false,
                        worktreeRemoveForceOk := false }
    wMixed "a" (by decide) (by decide) rfl

/-! ### Claim C8: rollback policy of create -/

theorem filter_ne_of_not_mem {fs : List String} {p : String}
    (hnot : p ∉ fs) : fs.filter (fun q => q ≠ p) = fs := by
  apply List.filter_eq_self.mpr
  intro a ha
  have hne : a ≠ p := fun h => hnot (h ▸ ha)
  simp [hne]

theorem rollback_fresh (o : Oracle) (fs : List String) (p : String)
    (hnot : p ∉ fs) (hrem : o.worktreeRemoveOk = true) :
    rollbackWorktree o (p :: fs) p = fs := by
  unfold rollbackWorktree
  rw [if_pos hrem]
  rw [List.filter_cons]
  simp [filter_ne_of_not_mem hnot]
  intro a ha
  exact fun h => hnot (h ▸ ha)

/-- C8 counterexample: the claim fails as stated.  In `wEmpty` with every
provider operation succeeding except the handle capture
(`display-message`), `create("x")` splits a pane successfully (step 3)
and then fails at step 4; the code removes the worktree — contradicting
"from step 4 onward failures do not unwind prior steps" — while leaving
the freshly created pane alive and unrecorded — contradicting "removes
everything provisioned so far" for provisioning-stage failures. -/
theorem c8_capture_failure_strands_pane :
    (addWorker { benignOracle with displayOk := false } wEmpty "x").fs =
      wEmpty.fs ∧
    (addWorker { benignOracle with displayOk := false } wEmpty "x").panes =
      wEmpty.panes ++ [⟨"%100", "host"⟩] ∧
    (addWorker { benignOracle with displayOk := false } wEmpty "x").saved =
      wEmpty.saved := by
  refine ⟨by decide, by decide, by decide⟩

/-- C8 amended: failures at worktree/pane provisioning (steps 2–3) roll
back fully — when both splits fail the returned world is exactly the
input world, no record appended, nothing saved.  A failure while
capturing the pane handle (step 4) also removes the worktree but leaves
the new pane alive.  Once the handle is captured, later failures (here:
the save) no longer unwind: worktree and titled pane remain. -/
theorem c8_rollback_amended (o : Oracle) (w : World) (id : String)
    (hcwd : goContains w.cwd "/worktree/" = false)
    (hproj : ¬ ((loadConfig w).projectPath ≠ "" ∧
      w.cwd ≠ (loadConfig w).projectPath))
    (hdup : (loadConfig w).workers.any (fun wk => wk.id = id) = false)
    (haddb : o.worktreeAddBOk = true)
    (hpath : goJoin ("./" ++ (loadConfig w).worktreePrefix) id ∉ w.fs)
    (hrem : o.worktreeRemoveOk = true)
    (hsn : getSessionName w ≠ "")
    (hsess : w.sessionExists = true) :
    (o.splitVOk = false → o.splitHOk = false → addWorker o w id = w) ∧
    ((o.splitVOk = true ∨ o.splitHOk = true) → o.displayOk = false →
      addWorker o w id =
        { w with panes := w.panes ++ [⟨o.freshPid w.paneCtr, o.defaultTitle⟩],
                 paneCtr := w.paneCtr + 1 }) ∧
    ((o.splitVOk = true ∨ o.splitHOk = true) → o.displayOk = true →
      o.retitleOk = true → o.saveOk = false →
      addWorker o w id =
        { w with
            fs := goJoin ("./" ++ (loadConfig w).worktreePrefix) id :: w.fs,
            panes := w.panes ++ [⟨o.freshPid w.paneCtr, id⟩],
            paneCtr := w.paneCtr + 1 }) := by
  refine ⟨?_, ?_, ?_⟩
  · intro hv hh
    unfold addWorker
    dsimp only
    rw [if_neg (by simp [hcwd]), if_neg hproj, if_neg (by simp [hdup]),
        if_neg (by simp [haddb]), if_neg hsn, if_neg (by simp [hsess]),
        if_pos (by simp [hv, hh])]
    rw [rollback_fresh o w.fs _ hpath hrem]
  · intro hsplit hdisp
    unfold addWorker
    dsimp only
    rw [if_neg (by simp [hcwd]), if_neg hproj, if_neg (by simp [hdup]),
        if_neg (by simp [haddb]), if_neg hsn, if_neg (by simp [hsess]),
        if_neg (by simp [hsplit]), if_pos (by simp [hdisp])]
    rw [rollback_fresh o w.fs _ hpath hrem]
  · intro hsplit hdisp hret hsave
    unfold addWorker
    dsimp only
    rw [if_neg (by simp [hcwd]), if_neg hproj, if_neg (by simp [hdup]),
        if_neg (by simp [haddb]), if_neg hsn, if_neg (by simp [hsess]),
        if_neg (by simp [hsplit]), if_neg (by simp [hdisp]),
        if_pos hret, if_neg (by simp [hsave])]

/-- Witness for the amended C8, exercising the post-capture branch. -/
theorem c8_rollback_amended_witness :
    addWorker { benignOracle with saveOk := false } wEmpty "x" =
      { wEmpty with
          fs := goJoin ("./" ++ (loadConfig wEmpty).worktreePrefix) "x" ::
            wEmpty.fs,
          panes := wEmpty.panes ++
            [⟨({ benignOracle with saveOk := false } : Oracle).freshPid
                wEmpty.paneCtr, "x"⟩],
          paneCtr := wEmpty.paneCtr + 1 } :=
  (c8_rollback_amended { benignOracle with saveOk := false } wEmpty "x"
    (by decide) (by decide) (by decide) rfl (by decide) rfl (by decide)
    rfl).2.2 (Or.inl rfl) rfl rfl rfl

/-! ### Claim C3: repair's pane recreation vs creation's split policy -/

theorem repairWorkers_panes_of_no_vsplit (o : Oracle) (pm : List String)
    (hv : o.splitVOk = false) :
    ∀ (ws : List Worker) (panes : List Pane) (fs : List String)
      (ctr cnt : Nat),
      (repairWorkers o pm ws panes fs ctr cnt).panes = panes := by
  intro ws
  induction ws with
  | nil => intro panes fs ctr cnt; rfl
  | cons wk rest ih =>
      intro panes fs ctr cnt
      unfold repairWorkers
      by_cases hc : pm.contains wk.id = true
      · rw [if_pos hc]
        dsimp only
        exact ih panes _ ctr _
      · rw [if_neg hc, if_pos (by simp [hv])]
        dsimp only
        exact ih panes fs ctr cnt

/-- C3 counterexample: the claim fails as stated.  With the vertical
split failing and the horizontal split available, REPAIR performs no
pane repair at all for worker `a` (count 0, panes unchanged — the code
only ever runs `split-window -v` and `continue`s on failure), while
`create` in the same situation provisions a pane through its horizontal
fallback, so repair's pane provisioning is not equivalent to create's. -/
theorem c3_split_policy_counterexample :
    (repairInconsistencies { benignOracle with splitVOk := false }
        wMissingPane).count = 0 ∧
    (repairInconsistencies { benignOracle with splitVOk := false }
        wMissingPane).world.panes = wMissingPane.panes ∧
    (addWorker { benignOracle with splitVOk := false } wEmpty "b").panes =
      wEmpty.panes ++ [⟨"%100", "b"⟩] := by
  refine ⟨by decide, by decide, by decide⟩

/-- C3 amended: repair attempts only a vertical split when recreating a
missing pane and skips that worker entirely if it fails — whenever the
vertical split fails, a whole repair pass creates no pane at all —
whereas creation falls back to a horizontal split and still provisions
the pane.  (Repair's provisioning refines creation's only when the
vertical split succeeds.) -/
theorem c3_repair_split_no_fallback (o : Oracle) (w : World)
    (hv : o.splitVOk = false) :
    (repairInconsistencies o w).world.panes = w.panes ∧
    (o.splitHOk = true →
      ∀ id : String,
        goContains w.cwd "/worktree/" = false →
        ¬ ((loadConfig w).projectPath ≠ "" ∧
          w.cwd ≠ (loadConfig w).projectPath) →
        (loadConfig w).workers.any (fun wk => wk.id = id) = false →
        o.worktreeAddBOk = true →
        getSessionName w ≠ "" →
        w.sessionExists = true →
        o.displayOk = true →
        o.retitleOk = true →
        (addWorker o w id).panes =
          w.panes ++ [⟨o.freshPid w.paneCtr, id⟩]) := by
  constructor
  · unfold repairInconsistencies
    by_cases h1 : getSessionName w = ""
    · rw [if_pos h1]
    · rw [if_neg h1]
      by_cases h2 : ¬ w.sessionExists = true
      · rw [if_pos h2]
      · rw [if_neg h2]
        dsimp only
        by_cases h3 : ¬ o.listPanes0Ok = true
        · rw [if_pos h3]
        · rw [if_neg h3]
          dsimp only
          exact repairWorkers_panes_of_no_vsplit o _ hv _ _ _ _ _
  · intro hH id hcwd hproj hdup haddb hsn hsess hdisp hret
    unfold addWorker
    dsimp only
    rw [if_neg (by simp [hcwd]), if_neg hproj, if_neg (by simp [hdup]),
        if_neg (by simp [haddb]), if_neg hsn, if_neg (by simp [hsess]),
        if_neg (by simp [hH]), if_neg (by simp [hdisp]), if_pos hret]

/-- Witness for the amended C3 at concrete inputs. -/
theorem c3_repair_split_no_fallback_witness :
    (repairInconsistencies { benignOracle with splitVOk := false }
        wEmpty).world.panes = wEmpty.panes ∧
    (addWorker { benignOracle with splitVOk := false } wEmpty "b").panes =
      wEmpty.panes ++
        [⟨({ benignOracle with splitVOk := false } : Oracle).freshPid
            wEmpty.paneCtr, "b"⟩] := by
  have h := c3_repair_split_no_fallback
    { benignOracle with splitVOk := false } wEmpty rfl
  exact ⟨h.1, h.2 rfl "b" (by decide) (by decide) (by decide) rfl
    (by decide) rfl rfl rfl⟩

/-! ### Lemmas about phase 1 (the workers loop) -/

theorem repairWorktreeStep_fs (o : Oracle) (wk : Worker)
    (fs : List String) :
    (repairWorktreeStep o wk fs).1 = fs ∨
    (repairWorktreeStep o wk fs).1 = wk.worktreePath :: fs := by
  unfold repairWorktreeStep
  split
  · exact Or.inl rfl
  · split
    · exact Or.inr rfl
    · exact Or.inl rfl

theorem repairWorktreeStep_covers (o : Oracle) (wk : Worker)
    (fs : List String) (haddb : o.worktreeAddBOk = true) :
    wk.worktreePath ∈ (repairWorktreeStep o wk fs).1 := by
  unfold repairWorktreeStep
  split
  · rename_i hc
    exact contains_iff_mem.mp hc
  · rw [if_pos (Or.inl haddb)]
    exact List.mem_cons_self _ _

theorem repairWorktreeStep_mono (o : Oracle) (wk : Worker)
    (fs : List String) {p : String} (h : p ∈ fs) :
    p ∈ (repairWorktreeStep o wk fs).1 := by
  rcases repairWorktreeStep_fs o wk fs with he | he
  · rw [he]; exact h
  · rw [he]; exact List.mem_cons_of_mem _ h

theorem repairWorkers_ids (o : Oracle) (pm : List String) :
    ∀ (ws : List Worker) (panes : List Pane) (fs : List String)
      (ctr cnt : Nat),
      workerIds (repairWorkers o pm ws panes fs ctr cnt).workers =
        workerIds ws := by
  intro ws
  induction ws with
  | nil => intro panes fs ctr cnt; rfl
  | cons wk rest ih =>
      intro panes fs ctr cnt
      unfold repairWorkers
      by_cases hc : pm.contains wk.id = true
      · rw [if_pos hc]
        exact congrArg (List.cons wk.id) (ih _ _ _ _)
      · rw [if_neg hc]
        by_cases hv : ¬ o.splitVOk = true
        · rw [if_pos hv]
          exact congrArg (List.cons wk.id) (ih _ _ _ _)
        · rw [if_neg hv]
          by_cases hl : ¬ o.listPanesRepairOk = true
          · rw [if_pos hl]
            exact congrArg (List.cons wk.id) (ih _ _ _ _)
          · rw [if_neg hl]
            exact congrArg (List.cons wk.id) (ih _ _ _ _)

theorem repairWorkers_mem (o : Oracle) (pm : List String) :
    ∀ (ws : List Worker) (panes : List Pane) (fs : List String)
      (ctr cnt : Nat) (wk' : Worker),
      wk' ∈ (repairWorkers o pm ws panes fs ctr cnt).workers →
      ∃ wk ∈ ws, wk'.id = wk.id ∧ wk'.worktreePath = wk.worktreePath := by
  intro ws
  induction ws with
  | nil => intro panes fs ctr cnt wk' h; cases h
  | cons wk rest ih =>
      intro panes fs ctr cnt wk' h
      unfold repairWorkers at h
      by_cases hc : pm.contains wk.id = true
      · rw [if_pos hc] at h
        rcases List.mem_cons.mp h with he | hm
        · exact ⟨wk, List.mem_cons_self _ _, by rw [he], by rw [he]⟩
        · rcases ih _ _ _ _ _ hm with ⟨wk0, h0, h1, h2⟩
          exact ⟨wk0, List.mem_cons_of_mem _ h0, h1, h2⟩
      · rw [if_neg hc] at h
        by_cases hv : ¬ o.splitVOk = true
        · rw [if_pos hv] at h
          rcases List.mem_cons.mp h with he | hm
          · exact ⟨wk, List.mem_cons_self _ _, by rw [he], by rw [he]⟩
          · rcases ih _ _ _ _ _ hm with ⟨wk0, h0, h1, h2⟩
            exact ⟨wk0, List.mem_cons_of_mem _ h0, h1, h2⟩
        · rw [if_neg hv] at h
          by_cases hl : ¬ o.listPanesRepairOk = true
          · rw [if_pos hl] at h
            rcases List.mem_cons.mp h with he | hm
            · exact ⟨wk, List.mem_cons_self _ _, by rw [he], by rw [he]⟩
            · rcases ih _ _ _ _ _ hm with ⟨wk0, h0, h1, h2⟩
              exact ⟨wk0, List.mem_cons_of_mem _ h0, h1, h2⟩
          · rw [if_neg hl] at h
            rcases List.mem_cons.mp h with he | hm
            · exact ⟨wk, List.mem_cons_self _ _, by rw [he], by rw [he]⟩
            · rcases ih _ _ _ _ _ hm with ⟨wk0, h0, h1, h2⟩
              exact ⟨wk0, List.mem_cons_of_mem _ h0, h1, h2⟩

theorem repairWorkers_panes_ext (o : Oracle) (pm : List String) :
    ∀ (ws : List Worker) (panes : List Pane) (fs : List String)
      (ctr cnt : Nat),
      ∃ ext, (repairWorkers o pm ws panes fs ctr cnt).panes =
        panes ++ ext := by
  intro ws
  induction ws with
  | nil =>
      intro panes fs ctr cnt
      exact ⟨[], (List.append_nil panes).symm⟩
  | cons wk rest ih =>
      intro panes fs ctr cnt
      unfold repairWorkers
      by_cases hc : pm.contains wk.id = true
      · rw [if_pos hc]
        exact ih _ _ _ _
      · rw [if_neg hc]
        by_cases hv : ¬ o.splitVOk = true
        · rw [if_pos hv]
          exact ih _ _ _ _
        · rw [if_neg hv]
          by_cases hl : ¬ o.listPanesRepairOk = true
          · rw [if_pos hl]
            rcases ih (panes ++ [⟨o.freshPid ctr, o.defaultTitle⟩]) fs
              (ctr + 1) cnt with ⟨ext, he⟩
            exact ⟨⟨o.freshPid ctr, o.defaultTitle⟩ :: ext,
              by rw [he, List.append_assoc]; rfl⟩
          · rw [if_neg hl]
            rcases ih (panes ++ [⟨o.freshPid ctr,
                if o.retitleOk = true then wk.id else o.defaultTitle⟩])
              (repairWorktreeStep o { wk with
                  paneIndex := (panes.length : Int),
                  paneID := o.freshPid ctr } fs).1
              (ctr + 1)
              (cnt + 1 + (repairWorktreeStep o { wk with
                  paneIndex := (panes.length : Int),
                  paneID := o.freshPid ctr } fs).2) with ⟨ext, he⟩
            exact ⟨⟨o.freshPid ctr,
                if o.retitleOk = true then wk.id else o.defaultTitle⟩ :: ext,
              by rw [he, List.append_assoc]; rfl⟩

theorem repairWorkers_panes_titles (o : Oracle) (pm : List String)
    (hrt : o.retitleOk = true) (hlp : o.listPanesRepairOk = true) :
    ∀ (ws : List Worker) (panes : List Pane) (fs : List String)
      (ctr cnt : Nat) (q : Pane),
      q ∈ (repairWorkers o pm ws panes fs ctr cnt).panes →
      q ∈ panes ∨ q.title ∈ workerIds ws := by
  intro ws
  induction ws with
  | nil => intro panes fs ctr cnt q h; exact Or.inl h
  | cons wk rest ih =>
      intro panes fs ctr cnt q h
      unfold repairWorkers at h
      by_cases hc : pm.contains wk.id = true
      · rw [if_pos hc] at h
        rcases ih _ _ _ _ _ h with h1 | h1
        · exact Or.inl h1
        · exact Or.inr (List.mem_cons_of_mem _ h1)
      · rw [if_neg hc] at h
        by_cases hv : ¬ o.splitVOk = true
        · rw [if_pos hv] at h
          rcases ih _ _ _ _ _ h with h1 | h1
          · exact Or.inl h1
          · exact Or.inr (List.mem_cons_of_mem _ h1)
        · rw [if_neg hv] at h
          by_cases hl : ¬ o.listPanesRepairOk = true
          · rw [if_pos hl] at h
            exact absurd hlp hl
          · rw [if_neg hl] at h
            rcases ih _ _ _ _ _ h with h1 | h1
            · rcases List.mem_append.mp h1 with h2 | h2
              · exact Or.inl h2
              · rw [List.mem_singleton] at h2
                rw [h2]
                rw [if_pos hrt]
                exact Or.inr (List.mem_cons_self _ _)
            · exact Or.inr (List.mem_cons_of_mem _ h1)

theorem repairWorkers_fs_mono (o : Oracle) (pm : List String) :
    ∀ (ws : List Worker) (panes : List Pane) (fs : List String)
      (ctr cnt : Nat) (p : String),
      p ∈ fs → p ∈ (repairWorkers o pm ws panes fs ctr cnt).fs := by
  intro ws
  induction ws with
  | nil => intro panes fs ctr cnt p h; exact h
  | cons wk rest ih =>
      intro panes fs ctr cnt p h
      unfold repairWorkers
      by_cases hc : pm.contains wk.id = true
      · rw [if_pos hc]
        exact ih _ _ _ _ _ (repairWorktreeStep_mono o wk fs h)
      · rw [if_neg hc]
        by_cases hv : ¬ o.splitVOk = true
        · rw [if_pos hv]
          exact ih _ _ _ _ _ h
        · rw [if_neg hv]
          by_cases hl : ¬ o.listPanesRepairOk = true
          · rw [if_pos hl]
            exact ih _ _ _ _ _ h
          · rw [if_neg hl]
            exact ih _ _ _ _ _ (repairWorktreeStep_mono o _ fs h)

theorem repairWorkers_fs_sub (o : Oracle) (pm : List String) :
    ∀ (ws : List Worker) (panes : List Pane) (fs : List String)
      (ctr cnt : Nat) (p : String),
      p ∈ (repairWorkers o pm ws panes fs ctr cnt).fs →
      p ∈ fs ∨ ∃ wk ∈ ws, p = wk.worktreePath := by
  intro ws
  induction ws with
  | nil => intro panes fs ctr cnt p h; exact Or.inl h
  | cons wk rest ih =>
      intro panes fs ctr cnt p h
      unfold repairWorkers at h
      by_cases hc : pm.contains wk.id = true
      · rw [if_pos hc] at h
        rcases ih _ _ _ _ _ h with h1 | ⟨wk0, h0, h1⟩
        · rcases repairWorktreeStep_fs o wk fs with he | he
          · rw [he] at h1
            exact Or.inl h1
          · rw [he] at h1
            rcases List.mem_cons.mp h1 with h2 | h2
            · exact Or.inr ⟨wk, List.mem_cons_self _ _, h2⟩
            · exact Or.inl h2
        · exact Or.inr ⟨wk0, List.mem_cons_of_mem _ h0, h1⟩
      · rw [if_neg hc] at h
        by_cases hv : ¬ o.splitVOk = true
        · rw [if_pos hv] at h
          rcases ih _ _ _ _ _ h with h1 | ⟨wk0, h0, h1⟩
          · exact Or.inl h1
          · exact Or.inr ⟨wk0, List.mem_cons_of_mem _ h0, h1⟩
        · rw [if_neg hv] at h
          by_cases hl : ¬ o.listPanesRepairOk = true
          · rw [if_pos hl] at h
            rcases ih _ _ _ _ _ h with h1 | ⟨wk0, h0, h1⟩
            · exact Or.inl h1
            · exact Or.inr ⟨wk0, List.mem_cons_of_mem _ h0, h1⟩
          · rw [if_neg hl] at h
            rcases ih _ _ _ _ _ h with h1 | ⟨wk0, h0, h1⟩
            · rcases repairWorktreeStep_fs o
                { wk with paneIndex := (panes.length : Int),
                          paneID := o.freshPid ctr } fs with he | he
              · rw [he] at h1
                exact Or.inl h1
              · rw [he] at h1
                rcases List.mem_cons.mp h1 with h2 | h2
                · exact Or.inr ⟨wk, List.mem_cons_self _ _, h2⟩
                · exact Or.inl h2
            · exact Or.inr ⟨wk0, List.mem_cons_of_mem _ h0, h1⟩

theorem repairWorkers_path_coverage (o : Oracle) (pm : List String)
    (hv : o.splitVOk = true) (hlp : o.listPanesRepairOk = true)
    (haddb : o.worktreeAddBOk = true) :
    ∀ (ws : List Worker) (panes : List Pane) (fs : List String)
      (ctr cnt : Nat) (wk : Worker), wk ∈ ws →
      wk.worktreePath ∈ (repairWorkers o pm ws panes fs ctr cnt).fs := by
  intro ws
  induction ws with
  | nil => intro panes fs ctr cnt wk h; cases h
  | cons wk0 rest ih =>
      intro panes fs ctr cnt wk h
      unfold repairWorkers
      rcases List.mem_cons.mp h with he | hm
      · subst he
        by_cases hc : pm.contains wk.id = true
        · rw [if_pos hc]
          exact repairWorkers_fs_mono o pm _ _ _ _ _ _
            (repairWorktreeStep_covers o wk fs haddb)
        · rw [if_neg hc, if_neg (by simp [hv]), if_neg (by simp [hlp])]
          exact repairWorkers_fs_mono o pm _ _ _ _ _ _
            (repairWorktreeStep_covers o _ fs haddb)
      · by_cases hc : pm.contains wk0.id = true
        · rw [if_pos hc]
          exact ih _ _ _ _ _ hm
        · rw [if_neg hc, if_neg (by simp [hv]), if_neg (by simp [hlp])]
          exact ih _ _ _ _ _ hm

theorem repairWorkers_pane_coverage (o : Oracle) (pm : List String)
    (hv : o.splitVOk = true) (hlp : o.listPanesRepairOk = true)
    (hrt : o.retitleOk = true) :
    ∀ (ws : List Worker) (panes : List Pane) (fs : List String)
      (ctr cnt : Nat),
      (∀ t ∈ pm, ∃ q ∈ panes, q.title = t) →
      ∀ wk ∈ ws, ∃ q ∈ (repairWorkers o pm ws panes fs ctr cnt).panes,
        q.title = wk.id := by
  intro ws
  induction ws with
  | nil => intro panes fs ctr cnt hpm wk h; cases h
  | cons wk0 rest ih =>
      intro panes fs ctr cnt hpm wk h
      unfold repairWorkers
      have hmono : ∀ (panes2 : List Pane) (fs2 : List String)
          (ctr2 cnt2 : Nat) (q : Pane), q ∈ panes2 →
          q ∈ (repairWorkers o pm rest panes2 fs2 ctr2 cnt2).panes := by
        intro panes2 fs2 ctr2 cnt2 q hq
        rcases repairWorkers_panes_ext o pm rest panes2 fs2 ctr2 cnt2
          with ⟨ext, he⟩
        rw [he]
        exact List.mem_append_left _ hq
      rcases List.mem_cons.mp h with he | hm
      · subst he
        by_cases hc : pm.contains wk.id = true
        · rw [if_pos hc]
          rcases hpm wk.id (contains_iff_mem.mp hc) with ⟨q, hq, hqt⟩
          exact ⟨q, hmono _ _ _ _ q hq, hqt⟩
        · rw [if_neg hc, if_neg (by simp [hv]), if_neg (by simp [hlp])]
          refine ⟨⟨o.freshPid ctr,
            if o.retitleOk = true then wk.id else o.defaultTitle⟩,
            hmono _ _ _ _ _ (List.mem_append_right _ (List.mem_singleton.mpr
              rfl)), ?_⟩
          rw [if_pos hrt]
      · have hpm2 : ∀ (extra : List Pane) (t : String), t ∈ pm →
            ∃ q ∈ panes ++ extra, q.title = t := by
          intro extra t ht
          rcases hpm t ht with ⟨q, hq, hqt⟩
          exact ⟨q, List.mem_append_left _ hq, hqt⟩
        by_cases hc : pm.contains wk0.id = true
        · rw [if_pos hc]
          exact ih _ _ _ _ hpm _ hm
        · rw [if_neg hc, if_neg (by simp [hv]), if_neg (by simp [hlp])]
          exact ih _ _ _ _ (fun t ht => hpm2 _ t ht) _ hm

theorem repairWorkers_count0 (o : Oracle) (pm : List String) :
    ∀ (ws : List Worker) (panes : List Pane) (fs : List String)
      (ctr cnt : Nat),
      (∀ wk ∈ ws, pm.contains wk.id = true ∧
        fs.contains wk.worktreePath = true) →
      repairWorkers o pm ws panes fs ctr cnt =
        { workers := ws, panes := panes, fs := fs, ctr := ctr,
          count := cnt } := by
  intro ws
  induction ws with
  | nil => intro panes fs ctr cnt hyp; rfl
  | cons wk rest ih =>
      intro panes fs ctr cnt hyp
      unfold repairWorkers
      rw [if_pos (hyp wk (List.mem_cons_self _ _)).1]
      have hstep : repairWorktreeStep o wk fs = (fs, 0) := by
        unfold repairWorktreeStep
        rw [if_pos (hyp wk (List.mem_cons_self _ _)).2]
      rw [hstep]
      dsimp only
      rw [Nat.add_zero]
      rw [ih panes fs ctr cnt
        (fun wk2 h2 => hyp wk2 (List.mem_cons_of_mem _ h2))]

/-! ### Lemmas about phase 2 (orphaned-pane adoption) -/

theorem findPane_spec :
    ∀ (ps : List Pane) (t : String) (i j : Nat) (pid : String),
      findPane ps t i = some (j, pid) →
      ∃ q ∈ ps, q.title = t ∧ q.pid = pid := by
  intro ps
  induction ps with
  | nil => intro t i j pid h; cases h
  | cons q rest ih =>
      intro t i j pid h
      unfold findPane at h
      by_cases hq : q.title = t
      · rw [if_pos hq] at h
        cases h
        exact ⟨q, List.mem_cons_self _ _, hq, rfl⟩
      · rw [if_neg hq] at h
        rcases ih _ _ _ _ h with ⟨q2, h2, h3, h4⟩
        exact ⟨q2, List.mem_cons_of_mem _ h2, h3, h4⟩

theorem findPane_isSome :
    ∀ (ps : List Pane) (t : String) (i : Nat),
      (∃ q ∈ ps, q.title = t) →
      ∃ j pid, findPane ps t i = some (j, pid) := by
  intro ps
  induction ps with
  | nil => intro t i h; rcases h with ⟨q, hq, _⟩; cases hq
  | cons q rest ih =>
      intro t i h
      unfold findPane
      by_cases hq : q.title = t
      · rw [if_pos hq]
        exact ⟨i, q.pid, rfl⟩
      · rw [if_neg hq]
        rcases h with ⟨q2, hq2, ht2⟩
        rcases List.mem_cons.mp hq2 with he | hm
        · exact absurd (he ▸ ht2) hq
        · exact ih t (i + 1) ⟨q2, hm, ht2⟩

theorem findPane_append :
    ∀ (ps ext : List Pane) (t : String) (i j : Nat) (pid : String),
      findPane ps t i = some (j, pid) →
      findPane (ps ++ ext) t i = some (j, pid) := by
  intro ps
  induction ps with
  | nil => intro ext t i j pid h; cases h
  | cons q rest ih =>
      intro ext t i j pid h
      rw [List.cons_append]
      unfold findPane at h ⊢
      by_cases hq : q.title = t
      · rw [if_pos hq] at h ⊢
        exact h
      · rw [if_neg hq] at h ⊢
        exact ih _ _ _ _ _ h

theorem adoptEnsure_some (o : Oracle) (t : String) (fs : List String)
    (h : o.worktreeAddBOk = true ∨ goJoin "./worktree" t ∈ fs) :
    ∃ fs1, adoptEnsureWorktree o t fs = some fs1 ∧
      goJoin "./worktree" t ∈ fs1 ∧ ∀ p ∈ fs, p ∈ fs1 := by
  unfold adoptEnsureWorktree
  dsimp only
  by_cases hc : fs.contains (goJoin "./worktree" t) = true
  · rw [if_pos hc]
    exact ⟨fs, rfl, contains_iff_mem.mp hc, fun p hp => hp⟩
  · rw [if_neg hc]
    rcases h with h | h
    · rw [if_pos (Or.inl h)]
      exact ⟨_, rfl, List.mem_cons_self _ _,
        fun p hp => List.mem_cons_of_mem _ hp⟩
    · exact absurd (contains_iff_mem.mpr h) hc

theorem adoptEnsure_mono {o : Oracle} {t : String} {fs fs1 : List String}
    (h : adoptEnsureWorktree o t fs = some fs1) : ∀ p ∈ fs, p ∈ fs1 := by
  unfold adoptEnsureWorktree at h
  dsimp only at h
  by_cases hc : fs.contains (goJoin "./worktree" t) = true
  · rw [if_pos hc] at h
    cases h
    exact fun p hp => hp
  · rw [if_neg hc] at h
    by_cases ha : o.worktreeAddBOk = true ∨ o.worktreeAddNoBOk = true
    · rw [if_pos ha] at h
      cases h
      exact fun p hp => List.mem_cons_of_mem _ hp
    · rw [if_neg ha] at h
      cases h

theorem adoptEnsure_sub {o : Oracle} {t : String} {fs fs1 : List String}
    (h : adoptEnsureWorktree o t fs = some fs1) :
    ∀ p ∈ fs1, p ∈ fs ∨ p = goJoin "./worktree" t := by
  unfold adoptEnsureWorktree at h
  dsimp only at h
  by_cases hc : fs.contains (goJoin "./worktree" t) = true
  · rw [if_pos hc] at h
    cases h
    exact fun p hp => Or.inl hp
  · rw [if_neg hc] at h
    by_cases ha : o.worktreeAddBOk = true ∨ o.worktreeAddNoBOk = true
    · rw [if_pos ha] at h
      cases h
      intro p hp
      rcases List.mem_cons.mp hp with he | hm
      · exact Or.inr he
      · exact Or.inl hm
    · rw [if_neg ha] at h
      cases h

theorem adopt_workers_mono (o : Oracle) (cw : List String)
    (sn : String) (now : Nat) (panes : List Pane) :
    ∀ (T : List String) (workers : List Worker) (fs : List String)
      (cnt : Nat) (wk : Worker), wk ∈ workers →
      wk ∈ (adoptOrphanedPanes o cw sn now panes T workers fs cnt).workers := by
  intro T
  induction T with
  | nil => intro workers fs cnt wk h; exact h
  | cons t rest ih =>
      intro workers fs cnt wk h
      unfold adoptOrphanedPanes
      by_cases hcw : cw.contains t = true
      · rw [if_pos hcw]
        exact ih _ _ _ _ h
      · rw [if_neg hcw]
        rcases hens : adoptEnsureWorktree o t fs with _ | fs1
        · simp only [hens]
          exact ih _ _ _ _ h
        · simp only [hens]
          by_cases hlpa : ¬ o.listPanesAdoptOk = true
          · rw [if_pos hlpa]
            exact ih _ _ _ _ h
          · rw [if_neg hlpa]
            rcases hfind : findPane panes t 0 with _ | ⟨idx, pid⟩
            · simp only [hfind]
              exact ih _ _ _ _ h
            · simp only [hfind]
              by_cases hpid : pid ≠ ""
              · rw [if_pos hpid]
                exact ih _ _ _ _ (List.mem_append_left _ h)
              · rw [if_neg hpid]
                exact ih _ _ _ _ h

theorem adopt_ids_sub (o : Oracle) (cw : List String)
    (sn : String) (now : Nat) (panes : List Pane) :
    ∀ (T : List String) (workers : List Worker) (fs : List String)
      (cnt : Nat) (wk' : Worker),
      wk' ∈ (adoptOrphanedPanes o cw sn now panes T workers fs cnt).workers →
      wk' ∈ workers ∨
        (wk'.id ∈ T ∧ cw.contains wk'.id = false ∧
          o.listPanesAdoptOk = true ∧
          (∃ j, findPane panes wk'.id 0 = some (j, wk'.paneID)) ∧
          wk'.paneID ≠ "" ∧
          wk'.worktreePath = goJoin "./worktree" wk'.id) := by
  intro T
  induction T with
  | nil => intro workers fs cnt wk' h; exact Or.inl h
  | cons t rest ih =>
      intro workers fs cnt wk' h
      unfold adoptOrphanedPanes at h
      by_cases hcw : cw.contains t = true
      · rw [if_pos hcw] at h
        rcases ih _ _ _ _ h with h1 | ⟨h1, h2⟩
        · exact Or.inl h1
        · exact Or.inr ⟨List.mem_cons_of_mem _ h1, h2⟩
      · rw [if_neg hcw] at h
        rcases hens : adoptEnsureWorktree o t fs with _ | fs1
        · simp only [hens] at h
          rcases ih _ _ _ _ h with h1 | ⟨h1, h2⟩
          · exact Or.inl h1
          · exact Or.inr ⟨List.mem_cons_of_mem _ h1, h2⟩
        · simp only [hens] at h
          by_cases hlpa : ¬ o.listPanesAdoptOk = true
          · rw [if_pos hlpa] at h
            rcases ih _ _ _ _ h with h1 | ⟨h1, h2⟩
            · exact Or.inl h1
            · exact Or.inr ⟨List.mem_cons_of_mem _ h1, h2⟩
          · rw [if_neg hlpa] at h
            rcases hfind : findPane panes t 0 with _ | ⟨idx, pid⟩
            · simp only [hfind] at h
              rcases ih _ _ _ _ h with h1 | ⟨h1, h2⟩
              · exact Or.inl h1
              · exact Or.inr ⟨List.mem_cons_of_mem _ h1, h2⟩
            · simp only [hfind] at h
              by_cases hpid : pid ≠ ""
              · rw [if_pos hpid] at h
                rcases ih _ _ _ _ h with h1 | ⟨h1, h2⟩
                · rcases List.mem_append.mp h1 with h2 | h2
                  · exact Or.inl h2
                  · rw [List.mem_singleton] at h2
                    subst h2
                    refine Or.inr ⟨List.mem_cons_self _ _, ?_, ?_, ?_, hpid,
                      rfl⟩
                    · simpa using hcw
                    · simpa using hlpa
                    · exact ⟨idx, hfind⟩
                · exact Or.inr ⟨List.mem_cons_of_mem _ h1, h2⟩
              · rw [if_neg hpid] at h
                rcases ih _ _ _ _ h with h1 | ⟨h1, h2⟩
                · exact Or.inl h1
                · exact Or.inr ⟨List.mem_cons_of_mem _ h1, h2⟩

theorem adopt_fs_mono (o : Oracle) (cw : List String)
    (sn : String) (now : Nat) (panes : List Pane) :
    ∀ (T : List String) (workers : List Worker) (fs : List String)
      (cnt : Nat) (p : String), p ∈ fs →
      p ∈ (adoptOrphanedPanes o cw sn now panes T workers fs cnt).fs := by
  intro T
  induction T with
  | nil => intro workers fs cnt p h; exact h
  | cons t rest ih =>
      intro workers fs cnt p h
      unfold adoptOrphanedPanes
      by_cases hcw : cw.contains t = true
      · rw [if_pos hcw]
        exact ih _ _ _ _ h
      · rw [if_neg hcw]
        rcases hens : adoptEnsureWorktree o t fs with _ | fs1
        · simp only [hens]
          exact ih _ _ _ _ h
        · simp only [hens]
          have hp1 : p ∈ fs1 := adoptEnsure_mono hens p h
          by_cases hlpa : ¬ o.listPanesAdoptOk = true
          · rw [if_pos hlpa]
            exact ih _ _ _ _ hp1
          · rw [if_neg hlpa]
            rcases hfind : findPane panes t 0 with _ | ⟨idx, pid⟩
            · simp only [hfind]
              exact ih _ _ _ _ hp1
            · simp only [hfind]
              by_cases hpid : pid ≠ ""
              · rw [if_pos hpid]
                exact ih _ _ _ _ hp1
              · rw [if_neg hpid]
                exact ih _ _ _ _ hp1

theorem adopt_fs_sub (o : Oracle) (cw : List String)
    (sn : String) (now : Nat) (panes : List Pane) :
    ∀ (T : List String) (workers : List Worker) (fs : List String)
      (cnt : Nat) (p : String),
      p ∈ (adoptOrphanedPanes o cw sn now panes T workers fs cnt).fs →
      p ∈ fs ∨ ∃ t ∈ T, p = goJoin "./worktree" t := by
  intro T
  induction T with
  | nil => intro workers fs cnt p h; exact Or.inl h
  | cons t rest ih =>
      intro workers fs cnt p h
      unfold adoptOrphanedPanes at h
      by_cases hcw : cw.contains t = true
      · rw [if_pos hcw] at h
        rcases ih _ _ _ _ h with h1 | ⟨u, hu, he⟩
        · exact Or.inl h1
        · exact Or.inr ⟨u, List.mem_cons_of_mem _ hu, he⟩
      · rw [if_neg hcw] at h
        rcases hens : adoptEnsureWorktree o t fs with _ | fs1
        · simp only [hens] at h
          rcases ih _ _ _ _ h with h1 | ⟨u, hu, he⟩
          · exact Or.inl h1
          · exact Or.inr ⟨u, List.mem_cons_of_mem _ hu, he⟩
        · simp only [hens] at h
          have hsub : ∀ q ∈ fs1, q ∈ fs ∨ q = goJoin "./worktree" t :=
            adoptEnsure_sub hens
          have hfin : p ∈ fs1 →
              p ∈ fs ∨ ∃ u ∈ t :: rest, p = goJoin "./worktree" u := by
            intro hp
            rcases hsub p hp with h1 | h1
            · exact Or.inl h1
            · exact Or.inr ⟨t, List.mem_cons_self _ _, h1⟩
          by_cases hlpa : ¬ o.listPanesAdoptOk = true
          · rw [if_pos hlpa] at h
            rcases ih _ _ _ _ h with h1 | ⟨u, hu, he⟩
            · exact hfin h1
            · exact Or.inr ⟨u, List.mem_cons_of_mem _ hu, he⟩
          · rw [if_neg hlpa] at h
            rcases hfind : findPane panes t 0 with _ | ⟨idx, pid⟩
            · simp only [hfind] at h
              rcases ih _ _ _ _ h with h1 | ⟨u, hu, he⟩
              · exact hfin h1
              · exact Or.inr ⟨u, List.mem_cons_of_mem _ hu, he⟩
            · simp only [hfind] at h
              by_cases hpid : pid ≠ ""
              · rw [if_pos hpid] at h
                rcases ih _ _ _ _ h with h1 | ⟨u, hu, he⟩
                · exact hfin h1
                · exact Or.inr ⟨u, List.mem_cons_of_mem _ hu, he⟩
              · rw [if_neg hpid] at h
                rcases ih _ _ _ _ h with h1 | ⟨u, hu, he⟩
                · exact hfin h1
                · exact Or.inr ⟨u, List.mem_cons_of_mem _ hu, he⟩

theorem adopt_ids_mono (o : Oracle) (cw : List String)
    (sn : String) (now : Nat) (panes : List Pane) :
    ∀ (T : List String) (workers : List Worker) (fs : List String)
      (cnt : Nat) (s : String), s ∈ workerIds workers →
      s ∈ workerIds
        (adoptOrphanedPanes o cw sn now panes T workers fs cnt).workers := by
  intro T workers fs cnt s hs
  rcases List.mem_map.mp hs with ⟨wk, hwk, he⟩
  exact List.mem_map.mpr
    ⟨wk, adopt_workers_mono o cw sn now panes T workers fs cnt wk hwk, he⟩

theorem adopt_claims (o : Oracle) (cw : List String)
    (sn : String) (now : Nat) (panes : List Pane) :
    ∀ (T : List String) (workers : List Worker) (fs : List String)
      (cnt : Nat) (t : String), t ∈ T → cw.contains t = false →
      o.listPanesAdoptOk = true →
      (o.worktreeAddBOk = true ∨ goJoin "./worktree" t ∈ fs) →
      (∃ j pid, findPane panes t 0 = some (j, pid) ∧ pid ≠ "") →
      t ∈ workerIds
        (adoptOrphanedPanes o cw sn now panes T workers fs cnt).workers ∧
      goJoin "./worktree" t ∈
        (adoptOrphanedPanes o cw sn now panes T workers fs cnt).fs := by
  intro T
  induction T with
  | nil => intro workers fs cnt t h; cases h
  | cons t0 rest ih =>
      intro workers fs cnt t hmem hcw hlpa hadd hfind
      rcases List.mem_cons.mp hmem with he | hm
      · subst he
        have hncw : ¬ cw.contains t = true := by
          rw [hcw]; exact Bool.false_ne_true
        unfold adoptOrphanedPanes
        rw [if_neg hncw]
        rcases adoptEnsure_some o t fs hadd with ⟨fs1, hens, hpath, hmono⟩
        simp only [hens]
        rw [if_neg (by simp [hlpa])]
        rcases hfind with ⟨j, pid, hf, hpid⟩
        simp only [hf]
        rw [if_pos hpid]
        refine ⟨?_,
          adopt_fs_mono o cw sn now panes rest _ fs1 (cnt + 1) _ hpath⟩
        apply adopt_ids_mono o cw sn now panes rest _ fs1 (cnt + 1) t
        simp [workerIds]
      · unfold adoptOrphanedPanes
        by_cases hcw0 : cw.contains t0 = true
        · rw [if_pos hcw0]
          exact ih _ _ _ _ hm hcw hlpa hadd hfind
        · rw [if_neg hcw0]
          rcases hens : adoptEnsureWorktree o t0 fs with _ | fs1
          · simp only [hens]
            exact ih _ _ _ _ hm hcw hlpa hadd hfind
          · simp only [hens]
            have hadd1 : o.worktreeAddBOk = true ∨
                goJoin "./worktree" t ∈ fs1 := by
              rcases hadd with h | h
              · exact Or.inl h
              · exact Or.inr (adoptEnsure_mono hens _ h)
            by_cases hlpa0 : ¬ o.listPanesAdoptOk = true
            · rw [if_pos hlpa0]
              exact ih _ _ _ _ hm hcw hlpa hadd1 hfind
            · rw [if_neg hlpa0]
              rcases hfind0 : findPane panes t0 0 with _ | ⟨idx, pid⟩
              · simp only [hfind0]
                exact ih _ _ _ _ hm hcw hlpa hadd1 hfind
              · simp only [hfind0]
                by_cases hpid : pid ≠ ""
                · rw [if_pos hpid]
                  exact ih _ _ _ _ hm hcw hlpa hadd1 hfind
                · rw [if_neg hpid]
                  exact ih _ _ _ _ hm hcw hlpa hadd1 hfind

theorem adopt_count0 (o : Oracle) (cw : List String)
    (sn : String) (now : Nat) (panes : List Pane) :
    ∀ (T : List String) (workers : List Worker) (fs : List String)
      (cnt : Nat), (∀ t ∈ T, cw.contains t = true) →
      adoptOrphanedPanes o cw sn now panes T workers fs cnt =
        { workers := workers, fs := fs, count := cnt } := by
  intro T
  induction T with
  | nil => intro workers fs cnt hyp; rfl
  | cons t rest ih =>
      intro workers fs cnt hyp
      unfold adoptOrphanedPanes
      rw [if_pos (hyp t (List.mem_cons_self _ _))]
      exact ih _ _ _ (fun u hu => hyp u (List.mem_cons_of_mem _ hu))

/-! ### Lemmas about phase 3 (orphaned-worktree cleanup) -/

theorem removeOrphan_keeps {o : Oracle} {fs : List String}
    {p path : String} (hne : p ≠ path) (h : p ∈ fs) :
    p ∈ removeOrphanWorktree o fs path := by
  unfold removeOrphanWorktree
  split
  · exact List.mem_filter.mpr ⟨h, by simp [hne]⟩
  · split
    · exact List.mem_filter.mpr ⟨h, by simp [hne]⟩
    · exact h

theorem removeOrphan_sub {o : Oracle} {fs : List String} {p path : String}
    (h : p ∈ removeOrphanWorktree o fs path) : p ∈ fs := by
  unfold removeOrphanWorktree at h
  split at h
  · exact (List.mem_filter.mp h).1
  · split at h
    · exact (List.mem_filter.mp h).1
    · exact h

theorem removeOrphan_not_mem (o : Oracle) (fs : List String) (path : String)
    (h : o.worktreeRemoveOk = true ∨ o.worktreeRemoveForceOk = true) :
    path ∉ removeOrphanWorktree o fs path := by
  unfold removeOrphanWorktree
  intro hmem
  rcases h with h1 | h1
  · rw [if_pos h1] at hmem
    have := (List.mem_filter.mp hmem).2
    simp at this
  · by_cases h0 : o.worktreeRemoveOk = true
    · rw [if_pos h0] at hmem
      have := (List.mem_filter.mp hmem).2
      simp at this
    · rw [if_neg h0, if_pos h1] at hmem
      have := (List.mem_filter.mp hmem).2
      simp at this

theorem cleanup_fs_sub (o : Oracle) (cw pm : List String) :
    ∀ (entries fs : List String) (cnt : Nat) (p : String),
      p ∈ (cleanupOrphanedWorktrees o cw pm entries fs cnt).fs → p ∈ fs := by
  intro entries
  induction entries with
  | nil => intro fs cnt p h; exact h
  | cons x rest ih =>
      intro fs cnt p h
      unfold cleanupOrphanedWorktrees at h
      by_cases hc : ¬ cw.contains x = true ∧ ¬ pm.contains x = true
      · rw [if_pos hc] at h
        exact removeOrphan_sub (ih _ _ _ h)
      · rw [if_neg hc] at h
        exact ih _ _ _ h

theorem cleanup_keeps (o : Oracle) (cw pm : List String) :
    ∀ (entries fs : List String) (cnt : Nat) (p : String), p ∈ fs →
      (∀ x ∈ entries, ¬ cw.contains x = true → ¬ pm.contains x = true →
        goJoin "worktree" x ≠ p) →
      p ∈ (cleanupOrphanedWorktrees o cw pm entries fs cnt).fs := by
  intro entries
  induction entries with
  | nil => intro fs cnt p h _; exact h
  | cons x rest ih =>
      intro fs cnt p h hguard
      unfold cleanupOrphanedWorktrees
      by_cases hc : ¬ cw.contains x = true ∧ ¬ pm.contains x = true
      · rw [if_pos hc]
        refine ih _ _ _ (removeOrphan_keeps ?_ h)
          (fun y hy => hguard y (List.mem_cons_of_mem _ hy))
        intro he
        exact hguard x (List.mem_cons_self _ _) hc.1 hc.2 (he ▸ rfl)
      · rw [if_neg hc]
        exact ih _ _ _ h (fun y hy => hguard y (List.mem_cons_of_mem _ hy))

theorem cleanup_removes (o : Oracle) (cw pm : List String)
    (hrem : o.worktreeRemoveOk = true ∨ o.worktreeRemoveForceOk = true) :
    ∀ (entries fs : List String) (cnt : Nat) (x : String), x ∈ entries →
      cw.contains x = false → pm.contains x = false →
      goJoin "worktree" x ∉
        (cleanupOrphanedWorktrees o cw pm entries fs cnt).fs := by
  intro entries
  induction entries with
  | nil => intro fs cnt x h; cases h
  | cons x0 rest ih =>
      intro fs cnt x hmem hcw hpm
      rcases List.mem_cons.mp hmem with he | hm
      · subst he
        unfold cleanupOrphanedWorktrees
        rw [if_pos ⟨by rw [hcw]; exact Bool.false_ne_true,
          by rw [hpm]; exact Bool.false_ne_true⟩]
        intro hin
        exact removeOrphan_not_mem o fs (goJoin "worktree" x) hrem
          (cleanup_fs_sub o cw pm _ _ _ _ hin)
      · unfold cleanupOrphanedWorktrees
        by_cases hc : ¬ cw.contains x0 = true ∧ ¬ pm.contains x0 = true
        · rw [if_pos hc]
          exact ih _ _ _ hm hcw hpm
        · rw [if_neg hc]
          exact ih _ _ _ hm hcw hpm

theorem cleanup_count0 (o : Oracle) (cw pm : List String) :
    ∀ (entries fs : List String) (cnt : Nat),
      (∀ x ∈ entries, cw.contains x = true ∨ pm.contains x = true) →
      cleanupOrphanedWorktrees o cw pm entries fs cnt =
        { fs := fs, count := cnt } := by
  intro entries
  induction entries with
  | nil => intro fs cnt hyp; rfl
  | cons x rest ih =>
      intro fs cnt hyp
      unfold cleanupOrphanedWorktrees
      rw [if_neg (by
        intro hc
        rcases hyp x (List.mem_cons_self _ _) with h | h
        · exact hc.1 h
        · exact hc.2 h)]
      exact ih _ _ (fun y hy => hyp y (List.mem_cons_of_mem _ hy))

/-! ### Shape of a repair pass -/

theorem repair_eq_main (o : Oracle) (w : World)
    (hsn : getSessionName w ≠ "") (hsess : w.sessionExists = true)
    (hlp0 : o.listPanes0Ok = true) :
    repairInconsistencies o w =
      ⟨{ w with panes := (repairPhase1 o w).panes,
                fs := (repairPhase3 o w).fs,
                paneCtr := (repairPhase1 o w).ctr,
                saved := if o.saveOk then
                    some { loadConfig w with
                             workers := (repairPhase2 o w).workers }
                  else w.saved },
        { loadConfig w with workers := (repairPhase2 o w).workers },
        (repairPhase3 o w).count⟩ := by
  unfold repairInconsistencies
  rw [if_neg hsn, if_neg (by simp [hsess]), if_neg (by simp [hlp0])]

theorem repair_eq_skip (o : Oracle) (w : World)
    (h : getSessionName w = "" ∨ w.sessionExists = false ∨
      o.listPanes0Ok = false) :
    repairInconsistencies o w = ⟨w, loadConfig w, 0⟩ := by
  unfold repairInconsistencies
  by_cases h1 : getSessionName w = ""
  · rw [if_pos h1]
  · rw [if_neg h1]
    rcases h with h | h | h
    · exact absurd h h1
    · rw [if_pos (by simp [h])]
    · by_cases h2 : ¬ w.sessionExists = true
      · rw [if_pos h2]
      · rw [if_neg h2, if_pos (by simp [h])]

/-- A world in registry/pane/worktree agreement needs zero repairs: every
recorded worker has a live filtered title and an existing worktree path,
every live filtered title is a recorded id, and every entry under
`worktree/` is a recorded id or a live title. -/
theorem repair_count0_of_stable (o : Oracle) (w : World)
    (h1 : ∀ wk ∈ (loadConfig w).workers,
        wk.id ∈ paneTitles (getCurrentProjectName w) w.panes ∧
        wk.worktreePath ∈ w.fs)
    (h2 : ∀ t ∈ paneTitles (getCurrentProjectName w) w.panes,
        t ∈ workerIds (loadConfig w).workers)
    (h3 : ∀ x ∈ childNames w.fs "worktree",
        x ∈ workerIds (loadConfig w).workers ∨
        x ∈ paneTitles (getCurrentProjectName w) w.panes) :
    (repairInconsistencies o w).count = 0 := by
  by_cases hsn : getSessionName w = ""
  · rw [repair_eq_skip o w (Or.inl hsn)]
  · by_cases hsess : w.sessionExists = true
    · by_cases hlp0 : o.listPanes0Ok = true
      · rw [repair_eq_main o w hsn hsess hlp0]
        have e1 : repairPhase1 o w =
            { workers := (loadConfig w).workers, panes := w.panes,
              fs := w.fs, ctr := w.paneCtr, count := 0 } := by
          unfold repairPhase1
          exact repairWorkers_count0 o _ _ _ _ _ _ (fun wk hw =>
            ⟨contains_iff_mem.mpr ((h1 wk hw).1),
             contains_iff_mem.mpr ((h1 wk hw).2)⟩)
        have e2 : repairPhase2 o w =
            { workers := (loadConfig w).workers, fs := w.fs,
              count := 0 } := by
          unfold repairPhase2 repairCW
          rw [e1]
          exact adopt_count0 o _ _ _ _ _ _ _ _ (fun t ht =>
            contains_iff_mem.mpr (h2 t ht))
        have e3 : repairPhase3 o w = { fs := w.fs, count := 0 } := by
          unfold repairPhase3 repairCW
          rw [e1, e2]
          exact cleanup_count0 o _ _ _ _ _ (fun x hx => by
            rcases h3 x hx with h | h
            · exact Or.inl (contains_iff_mem.mpr h)
            · exact Or.inr (contains_iff_mem.mpr h))
        rw [e3]
      · rw [repair_eq_skip o w
          (Or.inr (Or.inr (Bool.eq_false_iff.mpr hlp0)))]
    · rw [repair_eq_skip o w
        (Or.inr (Or.inl (Bool.eq_false_iff.mpr hsess)))]

/-! ### Claim C1: orphaned-worktree cleanup runs last and is guarded -/

theorem not_contains_of_not_mem {l : List String} {a : String}
    (h : a ∉ l) : l.contains a = false :=
  Bool.eq_false_iff.mpr (fun hc => h (contains_iff_mem.mp hc))

theorem goBase_ne_empty (p : String) : goBase p ≠ "" := by
  unfold goBase
  split
  · decide
  · split
    · rename_i c hc
      intro he
      have hdata := congrArg String.data he
      simp only [string_mk_data] at hdata
      have hmem : c ∈ (splitChar '/' p.data []).filter
          (fun l => l ≠ []) := List.mem_of_mem_getLast? hc
      rcases List.mem_filter.mp hmem with ⟨_, hne⟩
      simp [hdata] at hne
    · decide

theorem getSessionName_ne_empty (w : World) : getSessionName w ≠ "" :=
  goBase_ne_empty w.cwd

/-- C1: in a repair pass (with the session present and the initial pane
query succeeding, and under the default prefix, where the worktree
directory is `worktree/`): (a) a directory `worktree/<t>` whose name is a
live filtered pane title is never removed — cleanup runs after adoption
and skips any entry with a live pane; (b) a directory `worktree/<x>`
matching no registry record and no live pane title is removed whenever
plain removal succeeds or, as a fallback, forced removal succeeds;
(c) a live pane title with no registry record is adopted into a new
WorkerRecord (given a successful re-query returning a non-empty pane id,
and a creatable or existing worktree) rather than its worktree being
cleaned up. -/
theorem c1_cleanup_ordered_and_guarded (o : Oracle) (w : World)
    (hsess : w.sessionExists = true) (hlp0 : o.listPanes0Ok = true) :
    (∀ t, t ∈ paneTitles (getCurrentProjectName w) w.panes →
      ("worktree/" ++ t) ∈ w.fs →
      ("worktree/" ++ t) ∈ (repairInconsistencies o w).world.fs) ∧
    (∀ x, x ∈ childNames w.fs "worktree" →
      x ∉ workerIds (loadConfig w).workers →
      x ∉ paneTitles (getCurrentProjectName w) w.panes →
      (o.worktreeRemoveOk = true ∨ o.worktreeRemoveForceOk = true) →
      ("worktree/" ++ x) ∉ (repairInconsistencies o w).world.fs) ∧
    (∀ t, t ∈ paneTitles (getCurrentProjectName w) w.panes →
      t ∉ workerIds (loadConfig w).workers →
      o.listPanesAdoptOk = true → o.worktreeAddBOk = true →
      (∃ j pid, findPane w.panes t 0 = some (j, pid) ∧ pid ≠ "") →
      t ∈ workerIds (repairInconsistencies o w).config.workers) := by
  have hsn : getSessionName w ≠ "" := getSessionName_ne_empty w
  rw [repair_eq_main o w hsn hsess hlp0]
  refine ⟨?_, ?_, ?_⟩
  · intro t ht hmem
    show ("worktree/" ++ t) ∈ (repairPhase3 o w).fs
    have h1 : ("worktree/" ++ t) ∈ (repairPhase1 o w).fs := by
      unfold repairPhase1
      exact repairWorkers_fs_mono o _ _ _ _ _ _ _ hmem
    have h2 : ("worktree/" ++ t) ∈ (repairPhase2 o w).fs := by
      unfold repairPhase2
      exact adopt_fs_mono o _ _ _ _ _ _ _ _ _ h1
    unfold repairPhase3
    refine cleanup_keeps o _ _ _ _ _ _ h2 ?_
    intro x hx hxcw hxpm he
    rw [goJoin_worktree] at he
    have hxt : x = t := worktree_path_inj he
    exact hxpm (contains_iff_mem.mpr (hxt ▸ ht))
  · intro x hx hnid hnpm hrem
    rcases mem_childNames.mp hx with ⟨p, hp, hchild⟩
    have hpx : p = "worktree/" ++ x := childOf_worktree_eq hchild
    have h1 : p ∈ (repairPhase1 o w).fs := by
      unfold repairPhase1
      exact repairWorkers_fs_mono o _ _ _ _ _ _ _ hp
    have h2 : p ∈ (repairPhase2 o w).fs := by
      unfold repairPhase2
      exact adopt_fs_mono o _ _ _ _ _ _ _ _ _ h1
    have hx2 : x ∈ childNames (repairPhase2 o w).fs "worktree" :=
      mem_childNames.mpr ⟨p, h2, hchild⟩
    have hcw : (repairCW o w).contains x = false := by
      apply not_contains_of_not_mem
      unfold repairCW repairPhase1
      rw [repairWorkers_ids]
      exact hnid
    have hpm : (paneTitles (getCurrentProjectName w) w.panes).contains x
        = false := not_contains_of_not_mem hnpm
    show ("worktree/" ++ x) ∉ (repairPhase3 o w).fs
    rw [← goJoin_worktree]
    unfold repairPhase3
    exact cleanup_removes o _ _ hrem _ _ _ _ hx2 hcw hpm
  · intro t ht hnid hlpa haddb hfind
    have hcw : (repairCW o w).contains t = false := by
      apply not_contains_of_not_mem
      unfold repairCW repairPhase1
      rw [repairWorkers_ids]
      exact hnid
    have hfind1 : ∃ j pid,
        findPane (repairPhase1 o w).panes t 0 = some (j, pid) ∧
        pid ≠ "" := by
      rcases hfind with ⟨j, pid, hf, hpid⟩
      rcases repairWorkers_panes_ext o
        (paneTitles (getCurrentProjectName w) w.panes)
        (loadConfig w).workers w.panes w.fs w.paneCtr 0 with ⟨ext, he⟩
      refine ⟨j, pid, ?_, hpid⟩
      unfold repairPhase1
      rw [he]
      exact findPane_append _ _ _ _ _ _ hf
    show t ∈ workerIds (repairPhase2 o w).workers
    unfold repairPhase2
    exact (adopt_claims o _ _ _ _ _ _ _ _ _ ht hcw hlpa (Or.inl haddb)
      hfind1).1

/-- Witness for C1 on `wMixed`: the worktree of live pane `a` survives,
the truly orphaned `worktree/junk` is removed even with plain removal
failing (forced removal as fallback), and orphan pane `g` is adopted. -/
theorem c1_cleanup_ordered_and_guarded_witness :
    ("worktree/" ++ "a") ∈ (repairInconsistencies
      { benignOracle with worktreeRemoveOk := false } wMixed).world.fs ∧
    ("worktree/" ++ "junk") ∉ (repairInconsistencies
      { benignOracle with worktreeRemoveOk := false } wMixed).world.fs ∧
    "g" ∈ workerIds (repairInconsistencies
      { benignOracle with worktreeRemoveOk := false } wMixed).config.workers := by
  have h := c1_cleanup_ordered_and_guarded
    { benignOracle with worktreeRemoveOk := false } wMixed rfl rfl
  exact ⟨h.1 "a" (by decide) (by decide),
    h.2.1 "junk" (by decide) (by decide) (by decide) (Or.inr rfl),
    h.2.2 "g" (by decide) (by decide) rfl rfl
      ⟨2, "%7", by decide, by decide⟩⟩

/-! ### Claim C10: adoption is guarded by the re-query -/

theorem adoptEnsure_some3 (o : Oracle) (t : String) (fs : List String)
    (h : o.worktreeAddBOk = true ∨ o.worktreeAddNoBOk = true ∨
      goJoin "./worktree" t ∈ fs) :
    ∃ fs1, adoptEnsureWorktree o t fs = some fs1 ∧
      goJoin "./worktree" t ∈ fs1 := by
  unfold adoptEnsureWorktree
  dsimp only
  by_cases hc : fs.contains (goJoin "./worktree" t) = true
  · rw [if_pos hc]
    exact ⟨fs, rfl, contains_iff_mem.mp hc⟩
  · rw [if_neg hc]
    rcases h with h | h | h
    · rw [if_pos (Or.inl h)]
      exact ⟨_, rfl, List.mem_cons_self _ _⟩
    · rw [if_pos (Or.inr h)]
      exact ⟨_, rfl, List.mem_cons_self _ _⟩
    · exact absurd (contains_iff_mem.mpr h) hc

theorem adopt_wt_persists (o : Oracle) (cw : List String)
    (sn : String) (now : Nat) (panes : List Pane) :
    ∀ (T : List String) (workers : List Worker) (fs : List String)
      (cnt : Nat) (t : String), t ∈ T → cw.contains t = false →
      (o.worktreeAddBOk = true ∨ o.worktreeAddNoBOk = true ∨
        goJoin "./worktree" t ∈ fs) →
      goJoin "./worktree" t ∈
        (adoptOrphanedPanes o cw sn now panes T workers fs cnt).fs := by
  intro T
  induction T with
  | nil => intro workers fs cnt t h; cases h
  | cons t0 rest ih =>
      intro workers fs cnt t hmem hcw hadd
      rcases List.mem_cons.mp hmem with he | hm
      · subst he
        have hncw : ¬ cw.contains t = true := by
          rw [hcw]; exact Bool.false_ne_true
        unfold adoptOrphanedPanes
        rw [if_neg hncw]
        rcases adoptEnsure_some3 o t fs hadd with ⟨fs1, hens, hpath⟩
        simp only [hens]
        by_cases hlpa : ¬ o.listPanesAdoptOk = true
        · rw [if_pos hlpa]
          exact adopt_fs_mono o cw sn now panes rest _ _ _ _ hpath
        · rw [if_neg hlpa]
          rcases hfind : findPane panes t 0 with _ | ⟨idx, pid⟩
          · simp only [hfind]
            exact adopt_fs_mono o cw sn now panes rest _ _ _ _ hpath
          · simp only [hfind]
            by_cases hpid : pid ≠ ""
            · rw [if_pos hpid]
              exact adopt_fs_mono o cw sn now panes rest _ _ _ _ hpath
            · rw [if_neg hpid]
              exact adopt_fs_mono o cw sn now panes rest _ _ _ _ hpath
      · unfold adoptOrphanedPanes
        by_cases hcw0 : cw.contains t0 = true
        · rw [if_pos hcw0]
          exact ih _ _ _ _ hm hcw hadd
        · rw [if_neg hcw0]
          rcases hens : adoptEnsureWorktree o t0 fs with _ | fs1
          · simp only [hens]
            exact ih _ _ _ _ hm hcw hadd
          · simp only [hens]
            have hadd1 : o.worktreeAddBOk = true ∨
                o.worktreeAddNoBOk = true ∨
                goJoin "./worktree" t ∈ fs1 := by
              rcases hadd with h | h | h
              · exact Or.inl h
              · exact Or.inr (Or.inl h)
              · exact Or.inr (Or.inr (adoptEnsure_mono hens _ h))
            by_cases hlpa0 : ¬ o.listPanesAdoptOk = true
            · rw [if_pos hlpa0]
              exact ih _ _ _ _ hm hcw hadd1
            · rw [if_neg hlpa0]
              rcases hfind0 : findPane panes t0 0 with _ | ⟨idx, pid⟩
              · simp only [hfind0]
                exact ih _ _ _ _ hm hcw hadd1
              · simp only [hfind0]
                by_cases hpid : pid ≠ ""
                · rw [if_pos hpid]
                  exact ih _ _ _ _ hm hcw hadd1
                · rw [if_neg hpid]
                  exact ih _ _ _ _ hm hcw hadd1

/-- C10: in a repair pass (session present, initial pane listing
succeeding), take a live filtered pane title `t` with no record in the
loaded registry.  (a) Only-if: whenever `t` ends up recorded after the
pass, the re-query listing succeeded and found a pane titled `t` whose
pane id is non-empty, and the appended record carries exactly that pane
id and the worktree path `worktree/<t>`.  (b) If the re-query listing
fails, no record is inserted for `t`.  (c) If the re-query finds no
matching pane, or only one with an empty pane id, no record is inserted
for `t`.  (d) The worktree `worktree/<t>`, whether pre-existing or
created during the adoption step, is left in place by the rest of the
pass even when adoption then fails. -/
theorem c10_adoption_guarded (o : Oracle) (w : World)
    (hsess : w.sessionExists = true) (hlp0 : o.listPanes0Ok = true)
    (t : String)
    (ht : t ∈ paneTitles (getCurrentProjectName w) w.panes)
    (hnid : t ∉ workerIds (loadConfig w).workers) :
    (t ∈ workerIds (repairInconsistencies o w).config.workers →
      o.listPanesAdoptOk = true ∧
      ∃ wk ∈ (repairInconsistencies o w).config.workers,
        wk.id = t ∧ wk.paneID ≠ "" ∧
        (∃ j, findPane (repairInconsistencies o w).world.panes t 0 =
          some (j, wk.paneID)) ∧
        wk.worktreePath = goJoin "./worktree" t) ∧
    (o.listPanesAdoptOk = false →
      t ∉ workerIds (repairInconsistencies o w).config.workers) ∧
    ((∀ j pid, findPane (repairInconsistencies o w).world.panes t 0 =
        some (j, pid) → pid = "") →
      t ∉ workerIds (repairInconsistencies o w).config.workers) ∧
    ((o.worktreeAddBOk = true ∨ o.worktreeAddNoBOk = true ∨
        ("worktree/" ++ t) ∈ w.fs) →
      ("worktree/" ++ t) ∈ (repairInconsistencies o w).world.fs) := by
  have hsn : getSessionName w ≠ "" := getSessionName_ne_empty w
  rw [repair_eq_main o w hsn hsess hlp0]
  have hcw : (repairCW o w).contains t = false := by
    apply not_contains_of_not_mem
    unfold repairCW repairPhase1
    rw [repairWorkers_ids]
    exact hnid
  have honly : t ∈ workerIds (repairPhase2 o w).workers →
      o.listPanesAdoptOk = true ∧
      ∃ wk ∈ (repairPhase2 o w).workers,
        wk.id = t ∧ wk.paneID ≠ "" ∧
        (∃ j, findPane (repairPhase1 o w).panes t 0 =
          some (j, wk.paneID)) ∧
        wk.worktreePath = goJoin "./worktree" t := by
    intro hmem
    rcases List.mem_map.mp hmem with ⟨wk, hwk, hid⟩
    rcases adopt_ids_sub o (repairCW o w) (getSessionName w) w.now
        (repairPhase1 o w).panes
        (paneTitles (getCurrentProjectName w) w.panes)
        (repairPhase1 o w).workers (repairPhase1 o w).fs
        (repairPhase1 o w).count wk hwk with
      h1 | ⟨_, _, hlpa, ⟨j, hf⟩, hpid, hwt⟩
    · exfalso
      have hmem1 : t ∈ repairCW o w := by
        unfold repairCW
        exact List.mem_map.mpr ⟨wk, h1, hid⟩
      rw [← contains_iff_mem] at hmem1
      rw [hcw] at hmem1
      exact Bool.false_ne_true hmem1
    · subst hid
      exact ⟨hlpa, wk, hwk, rfl, hpid, ⟨j, hf⟩, hwt⟩
  refine ⟨?_, ?_, ?_, ?_⟩
  · intro hmem
    exact honly hmem
  · intro hlpaf hmem
    have h1 := (honly hmem).1
    rw [hlpaf] at h1
    exact Bool.false_ne_true h1
  · intro hall hmem
    rcases honly hmem with ⟨_, wk, _, _, hpid, ⟨j, hf⟩, _⟩
    exact hpid (hall j wk.paneID hf)
  · intro hadd
    have h1 : goJoin "./worktree" t ∈ (repairPhase2 o w).fs := by
      unfold repairPhase2
      apply adopt_wt_persists o (repairCW o w) (getSessionName w) w.now
        (repairPhase1 o w).panes
        (paneTitles (getCurrentProjectName w) w.panes)
        (repairPhase1 o w).workers (repairPhase1 o w).fs
        (repairPhase1 o w).count t ht hcw
      rcases hadd with h | h | h
      · exact Or.inl h
      · exact Or.inr (Or.inl h)
      · refine Or.inr (Or.inr ?_)
        rw [goJoin_dot_worktree]
        unfold repairPhase1
        exact repairWorkers_fs_mono o _ _ _ _ _ _ _ h
    rw [goJoin_dot_worktree] at h1
    show ("worktree/" ++ t) ∈ (repairPhase3 o w).fs
    unfold repairPhase3
    refine cleanup_keeps o _ _ _ _ _ _ h1 ?_
    intro x hx hxcw hxpm he
    rw [goJoin_worktree] at he
    have hxt : x = t := worktree_path_inj he
    exact hxpm (contains_iff_mem.mpr (hxt ▸ ht))

/-- Witness for C10 on `wMixed` and orphan title `g`: with every
operation succeeding the created worktree survives the pass, and with
the adoption re-query failing the orphan is not recorded. -/
theorem c10_adoption_guarded_witness :
    ("worktree/" ++ "g") ∈
      (repairInconsistencies benignOracle wMixed).world.fs ∧
    "g" ∉ workerIds (repairInconsistencies
      { benignOracle with listPanesAdoptOk := false } wMixed).config.workers := by
  refine ⟨?_, ?_⟩
  · exact (c10_adoption_guarded benignOracle wMixed rfl rfl "g"
      (by decide) (by decide)).2.2.2 (Or.inl rfl)
  · exact (c10_adoption_guarded
      { benignOracle with listPanesAdoptOk := false } wMixed rfl rfl "g"
      (by decide) (by decide)).2.1 rfl

/-! ### Claim C9: idempotence of repair -/

theorem getDefaultInitCommand_ne : getDefaultInitCommand ≠ "" := by decide

theorem getDefaultWorktreePrefix_ne : getDefaultWorktreePrefix ≠ "" := by
  decide

theorem fillWtDefault_initCommand (c : Config) :
    (fillWtDefault c).initCommand = c.initCommand := by
  unfold fillWtDefault
  split
  · rfl
  · rfl

theorem fillInitDefault_initCommand_ne (c : Config) :
    (fillInitDefault c).initCommand ≠ "" := by
  unfold fillInitDefault
  by_cases h : c.initCommand = ""
  · rw [if_pos h]
    exact getDefaultInitCommand_ne
  · rw [if_neg h]
    exact h

theorem fillWtDefault_wtPrefix_ne (c : Config) :
    (fillWtDefault c).worktreePrefix ≠ "" := by
  unfold fillWtDefault
  by_cases h : c.worktreePrefix = ""
  · rw [if_pos h]
    exact getDefaultWorktreePrefix_ne
  · rw [if_neg h]
    exact h

theorem loadConfig_initCommand_ne (w : World) :
    (loadConfig w).initCommand ≠ "" := by
  unfold loadConfig
  rcases hs : w.saved with _ | c
  · simp only [hs]
    exact getDefaultInitCommand_ne
  · simp only [hs]
    unfold fillDefaults
    rw [fillWtDefault_initCommand]
    exact fillInitDefault_initCommand_ne c

theorem loadConfig_wtPrefix_ne (w : World) :
    (loadConfig w).worktreePrefix ≠ "" := by
  unfold loadConfig
  rcases hs : w.saved with _ | c
  · simp only [hs]
    exact getDefaultWorktreePrefix_ne
  · simp only [hs]
    unfold fillDefaults
    exact fillWtDefault_wtPrefix_ne _

theorem fillDefaults_eq_self {c : Config} (h1 : c.initCommand ≠ "")
    (h2 : c.worktreePrefix ≠ "") : fillDefaults c = c := by
  unfold fillDefaults fillInitDefault fillWtDefault
  rw [if_neg h1, if_neg h2]

theorem findPane_prefix_nonempty {ps ext : List Pane} {t : String}
    (hq : ∃ q ∈ ps, q.title = t) (hpids : ∀ q ∈ ps, q.pid ≠ "") :
    ∃ j pid, findPane (ps ++ ext) t 0 = some (j, pid) ∧ pid ≠ "" := by
  rcases findPane_isSome ps t 0 hq with ⟨j, pid, hf⟩
  rcases findPane_spec ps t 0 j pid hf with ⟨q1, hq1, _, hqp⟩
  exact ⟨j, pid, findPane_append ps ext t 0 j pid hf,
    hqp ▸ hpids q1 hq1⟩

/-- C9 counterexample: repair is not idempotent.  In `wReserved` the
single recorded worker's id equals the project name, so its pane title
is always filtered out of the pane map; every repair pass judges its
pane missing, splits a fresh one and counts one corrective action —
including the second pass run immediately after the first. -/
theorem c9_not_idempotent_counterexample :
    (repairInconsistencies benignOracle
      (repairInconsistencies benignOracle wReserved).world).count = 1 := by
  decide

/-- C9 (amended): repair is idempotent for registries whose worker ids
survive the pane-title filter.  With the session present, every provider
operation succeeding, every recorded worker id passing `paneFilter` (in
particular, no worker named after the project), recorded worktree paths
canonical (`worktree/<id>`), and every live pane carrying a non-empty
pane id, a second repair pass performs zero corrective actions. -/
theorem c9_repair_idempotent_amended (o : Oracle) (w : World)
    (hsess : w.sessionExists = true)
    (hv : o.splitVOk = true) (hlp0 : o.listPanes0Ok = true)
    (hlp : o.listPanesRepairOk = true) (hlpa : o.listPanesAdoptOk = true)
    (hrt : o.retitleOk = true) (haddb : o.worktreeAddBOk = true)
    (hrem : o.worktreeRemoveOk = true ∨ o.worktreeRemoveForceOk = true)
    (hsave : o.saveOk = true)
    (hfilter : ∀ wk ∈ (loadConfig w).workers,
      paneFilter (getCurrentProjectName w) wk.id = true)
    (hpaths : ∀ wk ∈ (loadConfig w).workers,
      wk.worktreePath = "worktree/" ++ wk.id)
    (hpids : ∀ q ∈ w.panes, q.pid ≠ "") :
    (repairInconsistencies o
      (repairInconsistencies o w).world).count = 0 := by
  have hsn : getSessionName w ≠ "" := getSessionName_ne_empty w
  have hw1 : (repairInconsistencies o w).world =
      { w with panes := (repairPhase1 o w).panes,
               fs := (repairPhase3 o w).fs,
               paneCtr := (repairPhase1 o w).ctr,
               saved := some { loadConfig w with
                                 workers := (repairPhase2 o w).workers } } := by
    rw [repair_eq_main o w hsn hsess hlp0]
    rw [if_pos hsave]
  have hload1 : loadConfig
      { w with panes := (repairPhase1 o w).panes,
               fs := (repairPhase3 o w).fs,
               paneCtr := (repairPhase1 o w).ctr,
               saved := some { loadConfig w with
                                 workers := (repairPhase2 o w).workers } } =
      { loadConfig w with workers := (repairPhase2 o w).workers } :=
    fillDefaults_eq_self (loadConfig_initCommand_ne w)
      (loadConfig_wtPrefix_ne w)
  have hids : workerIds (repairPhase1 o w).workers =
      workerIds (loadConfig w).workers :=
    repairWorkers_ids o (paneTitles (getCurrentProjectName w) w.panes)
      (loadConfig w).workers w.panes w.fs w.paneCtr 0
  have hP1ext : ∃ ext, (repairPhase1 o w).panes = w.panes ++ ext :=
    repairWorkers_panes_ext o (paneTitles (getCurrentProjectName w) w.panes)
      (loadConfig w).workers w.panes w.fs w.paneCtr 0
  have hpm_src : ∀ t ∈ paneTitles (getCurrentProjectName w) w.panes,
      ∃ q ∈ w.panes, q.title = t := fun t ht => (mem_paneTitles.mp ht).2
  rw [hw1]
  apply repair_count0_of_stable
  · intro wk hwk
    rw [hload1] at hwk
    have hwk2 : wk ∈ (adoptOrphanedPanes o (repairCW o w) (getSessionName w)
        w.now (repairPhase1 o w).panes
        (paneTitles (getCurrentProjectName w) w.panes)
        (repairPhase1 o w).workers (repairPhase1 o w).fs
        (repairPhase1 o w).count).workers := hwk
    rcases adopt_ids_sub o (repairCW o w) (getSessionName w) w.now
        (repairPhase1 o w).panes
        (paneTitles (getCurrentProjectName w) w.panes)
        (repairPhase1 o w).workers (repairPhase1 o w).fs
        (repairPhase1 o w).count wk hwk2 with
      h1 | ⟨hT, hcwf, _, _, _, hwt⟩
    · rcases repairWorkers_mem o
          (paneTitles (getCurrentProjectName w) w.panes)
          (loadConfig w).workers w.panes w.fs w.paneCtr 0 wk h1 with
        ⟨wk0, hw0, hid, hpath⟩
      constructor
      · show wk.id ∈ paneTitles (getCurrentProjectName w)
          (repairPhase1 o w).panes
        rw [hid]
        rcases repairWorkers_pane_coverage o
            (paneTitles (getCurrentProjectName w) w.panes) hv hlp hrt
            (loadConfig w).workers w.panes w.fs w.paneCtr 0 hpm_src
            wk0 hw0 with ⟨q, hq, hqt⟩
        exact mem_paneTitles.mpr ⟨hfilter wk0 hw0, q, hq, hqt⟩
      · show wk.worktreePath ∈ (repairPhase3 o w).fs
        rw [hpath, hpaths wk0 hw0]
        have hstep1 : wk0.worktreePath ∈ (repairPhase1 o w).fs :=
          repairWorkers_path_coverage o
            (paneTitles (getCurrentProjectName w) w.panes) hv hlp haddb
            (loadConfig w).workers w.panes w.fs w.paneCtr 0 wk0 hw0
        rw [hpaths wk0 hw0] at hstep1
        have hstep2 : ("worktree/" ++ wk0.id) ∈ (repairPhase2 o w).fs := by
          unfold repairPhase2
          exact adopt_fs_mono o _ _ _ _ _ _ _ _ _ hstep1
        unfold repairPhase3
        refine cleanup_keeps o _ _ _ _ _ _ hstep2 ?_
        intro y hy hycw hypm he
        rw [goJoin_worktree] at he
        have hyid : y = wk0.id := worktree_path_inj he
        have hmemcw : wk0.id ∈ repairCW o w := by
          show wk0.id ∈ workerIds (repairPhase1 o w).workers
          rw [hids]
          exact List.mem_map.mpr ⟨wk0, hw0, rfl⟩
        exact hycw (contains_iff_mem.mpr (hyid ▸ hmemcw))
    · constructor
      · show wk.id ∈ paneTitles (getCurrentProjectName w)
          (repairPhase1 o w).panes
        rcases hP1ext with ⟨ext, he⟩
        rw [he]
        exact paneTitles_mono hT
      · show wk.worktreePath ∈ (repairPhase3 o w).fs
        rw [hwt, goJoin_dot_worktree]
        have h2mem : goJoin "./worktree" wk.id ∈ (repairPhase2 o w).fs := by
          unfold repairPhase2
          exact adopt_wt_persists o _ _ _ _ _ _ _ _ wk.id hT hcwf
            (Or.inl haddb)
        rw [goJoin_dot_worktree] at h2mem
        unfold repairPhase3
        refine cleanup_keeps o _ _ _ _ _ _ h2mem ?_
        intro y hy hycw hypm he
        rw [goJoin_worktree] at he
        have hyid : y = wk.id := worktree_path_inj he
        exact hypm (contains_iff_mem.mpr (hyid ▸ hT))
  · intro t ht
    rw [hload1]
    have ht1 : t ∈ paneTitles (getCurrentProjectName w)
        (repairPhase1 o w).panes := ht
    show t ∈ workerIds (repairPhase2 o w).workers
    rcases mem_paneTitles.mp ht1 with ⟨hf, q, hq, rfl⟩
    rcases repairWorkers_panes_titles o
        (paneTitles (getCurrentProjectName w) w.panes) hrt hlp
        (loadConfig w).workers w.panes w.fs w.paneCtr 0 q hq with
      hold | hid0
    · have hT : q.title ∈ paneTitles (getCurrentProjectName w) w.panes :=
        mem_paneTitles.mpr ⟨hf, q, hold, rfl⟩
      by_cases hcwq : (repairCW o w).contains q.title = true
      · unfold repairPhase2
        apply adopt_ids_mono
        exact contains_iff_mem.mp hcwq
      · have hfp : ∃ j pid, findPane (repairPhase1 o w).panes q.title 0 =
            some (j, pid) ∧ pid ≠ "" := by
          rcases hP1ext with ⟨ext, he⟩
          rw [he]
          exact findPane_prefix_nonempty ⟨q, hold, rfl⟩ hpids
        unfold repairPhase2
        exact (adopt_claims o (repairCW o w) (getSessionName w) w.now
          (repairPhase1 o w).panes _ _ _ _ q.title hT
          (Bool.eq_false_iff.mpr hcwq) hlpa (Or.inl haddb) hfp).1
    · unfold repairPhase2
      apply adopt_ids_mono
      rw [hids]
      exact hid0
  · intro x hx
    rw [hload1]
    have hx1 : x ∈ childNames (repairPhase3 o w).fs "worktree" := hx
    rcases mem_childNames.mp hx1 with ⟨p, hp, hchild⟩
    have hpx : p = "worktree/" ++ x := childOf_worktree_eq hchild
    have hp2 : p ∈ (repairPhase2 o w).fs := by
      have hp3 : p ∈ (cleanupOrphanedWorktrees o (repairCW o w)
          (paneTitles (getCurrentProjectName w) w.panes)
          (childNames (repairPhase2 o w).fs "worktree")
          (repairPhase2 o w).fs (repairPhase2 o w).count).fs := hp
      exact cleanup_fs_sub o _ _ _ _ _ _ hp3
    have hx2 : x ∈ childNames (repairPhase2 o w).fs "worktree" :=
      mem_childNames.mpr ⟨p, hp2, hchild⟩
    by_cases hcwq : (repairCW o w).contains x = true
    · refine Or.inl ?_
      show x ∈ workerIds (repairPhase2 o w).workers
      unfold repairPhase2
      apply adopt_ids_mono
      exact contains_iff_mem.mp hcwq
    · by_cases hpmq : (paneTitles (getCurrentProjectName w)
          w.panes).contains x = true
      · refine Or.inr ?_
        show x ∈ paneTitles (getCurrentProjectName w)
          (repairPhase1 o w).panes
        rcases hP1ext with ⟨ext, he⟩
        rw [he]
        exact paneTitles_mono (contains_iff_mem.mp hpmq)
      · exfalso
        have hrm := cleanup_removes o (repairCW o w)
          (paneTitles (getCurrentProjectName w) w.panes) hrem
          (childNames (repairPhase2 o w).fs "worktree")
          (repairPhase2 o w).fs (repairPhase2 o w).count x hx2
          (Bool.eq_false_iff.mpr hcwq) (Bool.eq_false_iff.mpr hpmq)
        rw [goJoin_worktree] at hrm
        rw [hpx] at hp
        exact hrm hp

/-- Witness for the amended C9 on `wMixed`: all worker ids pass the
filter, all operations succeed, and the second repair pass counts zero
corrective actions. -/
theorem c9_repair_idempotent_amended_witness :
    (repairInconsistencies benignOracle
      (repairInconsistencies benignOracle wMixed).world).count = 0 := by
  exact c9_repair_idempotent_amended benignOracle wMixed rfl rfl rfl rfl
    rfl rfl rfl (Or.inl rfl) rfl (by decide) (by decide) (by decide)
